import Mathlib

/-!
# Verification of the website-pipeline scheduling engine (`src/app.py`)

Shallow embedding of `run_simulation` from `app.py`: a discrete-time greedy
list scheduler.  Python floats are modelled as `WithTop ℚ` (so that
`float('inf')` is `⊤`); Python dicts keyed by strings/ints are modelled as
insertion-ordered association lists with update-in-place semantics; the
string task ids `"W{i+1}-P{p}-Design"`, …, `"W{i+1}-GoLive"` are modelled by
the structured type `TaskId` (the Python formatting is injective, so this is
a faithful renaming).  The `while` loop is modelled with explicit fuel
(`loopN`); the fuel `2002` is provably enough for every input because the
clock rises by `0.5` per iteration and the loop breaks once the clock
exceeds `1000` (see the termination theorem).  The Gantt-chart rows built
inside the loop (pure presentation, depending on the wall-clock date) are
not modelled; `commits` is instrumentation recording, for each binding the
code performs, the resource unit chosen (`resource_to_assign`, canonicalised
to a category and index) and the committed interval.
-/

namespace WebDevSim

/-- Simulated time: a Python float that may be `float('inf')`. -/
abbrev Time := WithTop ℚ

/-- Task stages (`task['type']` in `app.py`). -/
inductive Stage where
  | Design | Content | WordPress | UI | GoLive
deriving DecidableEq, Repr

/-- The four resource categories (keys of `resource_free_on_day`). -/
inductive Cat where
  | Design | Content | WordPress | UI
deriving DecidableEq, Repr

/-- Structured rendering of the string task ids: `"W{site+1}-P{page}-…"` for
page tasks (`page = some p`) and `"W{site+1}-GoLive"` (`page = none`). -/
structure TaskId where
  site : Nat
  page : Option Nat
  stage : Stage
deriving DecidableEq, Repr

/-- `depends_on`: `None`, a single task id, or a list of task ids. -/
inductive Dep where
  | noDep : Dep
  | single : TaskId → Dep
  | many : List TaskId → Dep
deriving DecidableEq, Repr

/-- Task status strings. -/
inductive Status where
  | pending | inprogress | complete
deriving DecidableEq, Repr

/-- A task dict from `app.py` (start/end day `-1` until assignment). -/
structure Task where
  id : TaskId
  websiteId : Nat
  page : Option Nat
  type : Stage
  effort : Time
  status : Status
  dependsOn : Dep
  startDay : Time
  endDay : Time
deriving DecidableEq, Repr

/-- One entry of `websites_info`. -/
structure Site where
  id : Nat
  pages : Nat
deriving DecidableEq, Repr

/-- The `resources` dict (unit counts per category). -/
structure Resources where
  design : Nat
  content : Nat
  wordpress : Nat
  ui : Nat
deriving DecidableEq, Repr

/-- The `efforts` dict. -/
structure Efforts where
  design : ℚ
  content : ℚ
  wordpress : ℚ
  ui : ℚ
  go_live : ℚ
deriving DecidableEq, Repr

/-- Structured log events (the literal strings are presentation; the event
kinds and payloads are the contract). -/
inductive LogMsg where
  | timeout : LogMsg
  | activated : ℚ → Nat → LogMsg
  | workStarted : Time → Nat → Stage → LogMsg
  | siteComplete : Time → Nat → LogMsg
deriving DecidableEq, Repr

/-- Instrumentation: one binding event — the canonical resource unit the
code commits (`resource_to_assign` resolved to a category and index) and
the `(start_day, end_day)` interval it occupies. -/
structure Commit where
  unit : Cat × Nat
  startDay : Time
  endDay : Time
deriving DecidableEq, Repr

/-- The mutable state of `run_simulation`'s loop. -/
structure SimState where
  freeDesign : List Time
  freeContent : List Time
  freeWordPress : List Time
  freeUI : List Time
  tasks : List Task
  completed : List (TaskId × Time)
  active : List Nat
  startTimes : List (Nat × Time)
  endTimes : List (Nat × Time)
  startLogged : List Nat
  log : List LogMsg
  currentDay : ℚ
  timedOut : Bool
  commits : List Commit
deriving DecidableEq, Repr

/-- Python-dict insert: update the value of an existing key in place,
otherwise append (dicts preserve insertion order). -/
def dinsert {κ : Type} [DecidableEq κ] (k : κ) (v : Time) :
    List (κ × Time) → List (κ × Time)
  | [] => [(k, v)]
  | (k', v') :: rest =>
      if k' = k then (k', v) :: rest else (k', v') :: dinsert k v rest

/-- Python-dict lookup. -/
def dlookup {κ : Type} [DecidableEq κ] (k : κ) :
    List (κ × Time) → Option Time
  | [] => none
  | (k', v') :: rest => if k' = k then some v' else dlookup k rest

/-! ## Plan builder (lines 69–85 of `app.py`) -/

/-- The `-1` sentinel used for unassigned start/end days. -/
def unset : Time := ((-1 : ℚ) : Time)

/-- The four per-page tasks of one page (first loop of the builder). -/
def pageTasks (e : Efforts) (s : Site) (p : Nat) : List Task :=
  [ { id := ⟨s.id, some p, .Design⟩, websiteId := s.id, page := some p,
      type := .Design, effort := ((e.design : ℚ) : Time), status := .pending,
      dependsOn := .noDep, startDay := unset, endDay := unset },
    { id := ⟨s.id, some p, .Content⟩, websiteId := s.id, page := some p,
      type := .Content, effort := ((e.content : ℚ) : Time), status := .pending,
      dependsOn := .single ⟨s.id, some p, .Design⟩, startDay := unset, endDay := unset },
    { id := ⟨s.id, some p, .WordPress⟩, websiteId := s.id, page := some p,
      type := .WordPress, effort := ((e.wordpress : ℚ) : Time), status := .pending,
      dependsOn := .single ⟨s.id, some p, .Content⟩, startDay := unset, endDay := unset },
    { id := ⟨s.id, some p, .UI⟩, websiteId := s.id, page := some p,
      type := .UI, effort := ((e.ui : ℚ) : Time), status := .pending,
      dependsOn := .single ⟨s.id, some p, .WordPress⟩, startDay := unset, endDay := unset } ]

/-- All page tasks of one site, pages `1 .. pages`. -/
def siteTasks (e : Efforts) (s : Site) : List Task :=
  (List.range' 1 s.pages).flatMap (pageTasks e s)

/-- The Go-Live effort: `efforts['go_live'] / (WP + UI)`, `float('inf')`
when the pool is empty. -/
def goLiveEffort (r : Resources) (e : Efforts) : Time :=
  if 0 < r.wordpress + r.ui
  then ((e.go_live / (r.wordpress + r.ui : ℚ) : ℚ) : Time)
  else ⊤

/-- The Go-Live task of one site, given its dependency id list. -/
def goLiveTask (r : Resources) (e : Efforts) (deps : List TaskId) (s : Site) : Task :=
  { id := ⟨s.id, none, .GoLive⟩, websiteId := s.id, page := none,
    type := .GoLive, effort := goLiveEffort r e, status := .pending,
    dependsOn := .many deps, startDay := unset, endDay := unset }

/-- The UI task ids of website `sid` found in a task list
(`[t['id'] for t in tasks if t['website_id'] == site['id'] and t['type'] == 'UI']`). -/
def uiIdsIn (sid : Nat) (l : List Task) : List TaskId :=
  (l.filter fun t => t.websiteId == sid && t.type == Stage.UI).map (·.id)

/-- Second builder loop: append one Go-Live task for `s`, whose dependency
list is computed by filtering the tasks accumulated so far for UI tasks of
this website id. -/
def addGoLive (r : Resources) (e : Efforts) (acc : List Task) (s : Site) : List Task :=
  acc ++ [goLiveTask r e (uiIdsIn s.id acc) s]

/-- The full task set: all page tasks of all sites, then one Go-Live per
site. -/
def buildTasks (r : Resources) (ws : List Site) (e : Efforts) : List Task :=
  ws.foldl (addGoLive r e) (ws.flatMap (siteTasks e))

/-! ## Resource ledger -/

/-- The free-at array of one category. -/
def SimState.freeList (st : SimState) : Cat → List Time
  | .Design => st.freeDesign
  | .Content => st.freeContent
  | .WordPress => st.freeWordPress
  | .UI => st.freeUI

/-- The free-at mark of one resource unit (out-of-range reads default `0`;
all committed units are in range). -/
def freeAt (st : SimState) (u : Cat × Nat) : Time :=
  ((st.freeList u.1)[u.2]?).getD 0

/-- Overwrite one unit's free-at mark. -/
def commitUnit (st : SimState) (u : Cat × Nat) (v : Time) : SimState :=
  match u.1 with
  | .Design => { st with freeDesign := st.freeDesign.set u.2 v }
  | .Content => { st with freeContent := st.freeContent.set u.2 v }
  | .WordPress => { st with freeWordPress := st.freeWordPress.set u.2 v }
  | .UI => { st with freeUI := st.freeUI.set u.2 v }

/-- The `enumerate` scan of lines 143–147: running best
`(earliest_start_time, resource_to_assign)`, starting from
`(float('inf'), -1)`, updated whenever `max(free_day, dep_end_day)` is
strictly smaller. -/
def pickUnitAux (depEnd : Time) : List Time → Nat → Time × Int → Time × Int
  | [], _, best => best
  | f :: rest, i, best =>
      let possible := max f depEnd
      pickUnitAux depEnd rest (i + 1)
        (if possible < best.1 then (possible, (i : Int)) else best)

def pickUnit (pool : List Time) (depEnd : Time) : Time × Int :=
  pickUnitAux depEnd pool 0 (⊤, -1)

/-! ## Scheduling loop -/

/-- `'WordPress' if task['type'] == 'Go-Live' else task['type']`. -/
def stageCat : Stage → Cat
  | .Design => .Design
  | .Content => .Content
  | .WordPress => .WordPress
  | .UI => .UI
  | .GoLive => .WordPress

/-- Dependency satisfaction test (lines 118–124). -/
def depsMet (completed : List (TaskId × Time)) : Dep → Bool
  | .noDep => true
  | .single d => (dlookup d completed).isSome
  | .many ds => ds.all fun d => (dlookup d completed).isSome

/-- `dep_end_day` (lines 130–134): `0` for no dependency; the completed
finish for a single dependency (`0` if absent, mirroring the initial value);
for a list, the maximum of `completed_tasks.get(dep, 0)` when the list is
non-empty, else `0`. -/
def depEndDay (completed : List (TaskId × Time)) : Dep → Time
  | .noDep => 0
  | .single d => (dlookup d completed).getD 0
  | .many ds =>
      match ds with
      | [] => 0
      | d :: rest =>
          rest.foldl (fun m x => max m ((dlookup x completed).getD 0))
            ((dlookup d completed).getD 0)

/-- Stable insertion of one element into an accumulator sorted by the key
`(website_id, page or +inf)`; an element moves before another only when its
key is strictly smaller, so insertion preserves the original order of
equal-keyed elements — the behaviour of Python's stable `list.sort`. -/
def taskKeyLt (a b : Task) : Bool :=
  a.websiteId < b.websiteId ||
    (a.websiteId == b.websiteId &&
      match a.page, b.page with
      | some p, some q => p < q
      | some _, none => true
      | none, _ => false)

def insTask (x : Task) : List Task → List Task
  | [] => [x]
  | y :: ys => if taskKeyLt x y then x :: y :: ys else y :: insTask x ys

/-- `tasks.sort(key=lambda x: (x['website_id'], x['page'] … else inf))`. -/
def sortTasks (l : List Task) : List Task :=
  l.foldl (fun acc x => insTask x acc) []

/-- Stable sort of the site list by id (`sorted(websites_info, key=id)`). -/
def insSite (x : Site) : List Site → List Site
  | [] => [x]
  | y :: ys => if x.id < y.id then x :: y :: ys else y :: insSite x ys

def sortSites (l : List Site) : List Site :=
  l.foldl (fun acc x => insSite x acc) []

/-- Activation block (lines 102–109): when fewer than 2 websites are
active, activate the first site (in ascending id order) that is neither
active nor already finished, then `break`. -/
def activate (ws : List Site) (st : SimState) : SimState :=
  if st.active.length < 2 then
    match (sortSites ws).find?
        (fun s => !(st.active.contains s.id) && (dlookup s.id st.endTimes).isNone) with
    | some s =>
        { st with active := st.active ++ [s.id],
                  log := st.log ++ [.activated st.currentDay s.id] }
    | none => st
  else st

/-- The mutation performed when a task is bound (lines 150–184): set
status/start/end, record the website's first start once, and commit the
chosen unit's free-at mark.  `j` is the non-negative `resource_to_assign`,
`s` the computed `earliest_start_time`. -/
def boundUnit (st : SimState) (t : Task) (j : Nat) : Cat × Nat :=
  if t.type == .GoLive then
    if j < st.freeWordPress.length then (Cat.WordPress, j)
    else (Cat.UI, j - st.freeWordPress.length)
  else (stageCat t.type, j)

/-- Lines 172–175: record the website's chronologically first bound task
(start time and log entry), once. -/
def logFirstStart (st : SimState) (t : Task) (s : Time) : SimState :=
  if st.startLogged.contains t.websiteId then st
  else
    { st with startLogged := st.startLogged ++ [t.websiteId],
              startTimes := dinsert t.websiteId s st.startTimes,
              log := st.log ++ [LogMsg.workStarted s t.websiteId t.type] }

def bindAt (st : SimState) (i : Nat) (t : Task) (s : Time) (j : Nat) : SimState :=
  let t' := { t with status := .inprogress, startDay := s, endDay := s + t.effort }
  let unit := boundUnit st t j
  let st1 := { st with tasks := st.tasks.set i t',
                       commits := st.commits ++ [Commit.mk unit s (s + t.effort)] }
  commitUnit (logFirstStart st1 t s) unit (s + t.effort)

/-- Lines 129–152 for one pending task of an active website whose
dependencies are met. -/
def tryBind (st : SimState) (i : Nat) (t : Task) : SimState :=
  let depEnd := depEndDay st.completed t.dependsOn
  let pool :=
    if t.type == .GoLive then st.freeWordPress ++ st.freeUI
    else st.freeList (stageCat t.type)
  let best := pickUnit pool depEnd
  if best.2 != -1 && decide (best.1 ≤ (st.currentDay : Time)) then
    bindAt st i t best.1 best.2.toNat
  else st

/-- One iteration of the `for task in tasks` binding loop (lines 114–184),
acting on the task at position `i`. -/
def bindStep (st : SimState) (i : Nat) : SimState :=
  match st.tasks[i]? with
  | none => st
  | some t =>
      if (t.status == .pending) && st.active.contains t.websiteId then
        if depsMet st.completed t.dependsOn then tryBind st i t else st
      else st

def bindPhase (st : SimState) : SimState :=
  (List.range st.tasks.length).foldl bindStep st

/-- One iteration of the retirement loop (lines 188–196), acting on the
task at position `i`. -/
def retireStep (st : SimState) (i : Nat) : SimState :=
  match st.tasks[i]? with
  | none => st
  | some t =>
      if (t.status == .inprogress) && decide (t.endDay ≤ (st.currentDay : Time)) then
        let st1 := { st with tasks := st.tasks.set i { t with status := .complete },
                             completed := dinsert t.id t.endDay st.completed }
        if t.type == .GoLive then
          { st1 with endTimes := dinsert t.websiteId t.endDay st1.endTimes,
                     active := st1.active.erase t.websiteId,
                     log := st1.log ++ [.siteComplete t.endDay t.websiteId] }
        else st1
      else st

def retirePhase (st : SimState) : SimState :=
  (List.range st.tasks.length).foldl retireStep st

/-- Line 97–98: append the timeout log entry and break. -/
def timeoutBreak (st : SimState) : SimState :=
  { st with log := st.log ++ [.timeout], timedOut := true }

/-- Line 112: re-sort the task list (stable, static keys). -/
def sortPhase (st : SimState) : SimState :=
  { st with tasks := sortTasks st.tasks }

/-- Line 186: `current_day += time_step`. -/
def advanceClock (st : SimState) : SimState :=
  { st with currentDay := st.currentDay + 1 / 2 }

/-- One iteration of the `while` body (lines 95–196): safety check,
activation, sort, greedy binding, clock advance, retirement.  The
`websites_in_progress` set of line 100 is computed but never used by the
source, so it is not modelled.  The `current_day > 1000` branch appends the
timeout log entry and `break`s, modelled by the `timedOut` flag. -/
def simBody (ws : List Site) (st : SimState) : SimState :=
  if st.currentDay > 1000 then timeoutBreak st
  else retirePhase (advanceClock (bindPhase (sortPhase (activate ws st))))

/-- The `while` guard `len(completed_tasks) < len(tasks)`, conjoined with
the not-yet-broken flag. -/
def simGuard (st : SimState) : Bool :=
  !st.timedOut && decide (st.completed.length < st.tasks.length)

/-- Fuel-bounded iteration of the loop body. -/
def loopN (ws : List Site) : Nat → SimState → SimState
  | 0, st => st
  | n + 1, st => if simGuard st then loopN ws n (simBody ws st) else st

/-- The loop's initial state. -/
def initState (r : Resources) (ws : List Site) (e : Efforts) : SimState :=
  { freeDesign := List.replicate r.design 0,
    freeContent := List.replicate r.content 0,
    freeWordPress := List.replicate r.wordpress 0,
    freeUI := List.replicate r.ui 0,
    tasks := buildTasks r ws e,
    completed := [], active := [], startTimes := [], endTimes := [],
    startLogged := [], log := [], currentDay := 0, timedOut := false,
    commits := [] }

/-- `run_simulation`: fuel `2002` is provably sufficient for every input
(the clock advances `0.5` per iteration from `0` and the loop breaks once
it exceeds `1000`), so this equals the Python `while` loop's final state.
The returned Python tuple `(website_start_times, website_end_times,
log_messages, gantt_tasks)` is read off the final state's fields. -/
def run_simulation (r : Resources) (ws : List Site) (e : Efforts) : SimState :=
  loopN ws 2002 (initState r ws e)

/-! ## Basic loop lemmas -/

theorem loopN_fix (ws : List Site) (n : Nat) (st : SimState)
    (h : simGuard st = false) : loopN ws n st = st := by
  cases n with
  | zero => rfl
  | succ n => simp [loopN, h]

theorem loopN_add (ws : List Site) (m n : Nat) (st : SimState) :
    loopN ws (m + n) st = loopN ws n (loopN ws m st) := by
  induction m generalizing st with
  | zero => rw [Nat.zero_add]; rfl
  | succ m ih =>
      rw [Nat.succ_add]
      cases hg : simGuard st with
      | false =>
          rw [show loopN ws (m + n + 1) st = st by simp [loopN, hg],
            loopN_fix ws (m + 1) st hg, loopN_fix ws n st hg]
      | true =>
          rw [show loopN ws (m + n + 1) st = loopN ws (m + n) (simBody ws st) by
                simp [loopN, hg],
            ih, show loopN ws (m + 1) st = loopN ws m (simBody ws st) by
                simp [loopN, hg]]

/-- A property preserved by each step of a fold is preserved by the fold. -/
theorem foldl_pres {α : Type} {P : SimState → Prop} {f : SimState → α → SimState}
    (hf : ∀ s a, P s → P (f s a)) :
    ∀ (l : List α) (s : SimState), P s → P (l.foldl f s) := by
  intro l
  induction l with
  | nil => intro s hs; exact hs
  | cons a l ih => intro s hs; exact ih _ (hf s a hs)

/-- A property preserved by the loop body is preserved by `loopN`. -/
theorem loopN_inv {P : SimState → Prop} (ws : List Site)
    (hbody : ∀ st, P st → P (simBody ws st)) :
    ∀ (k : Nat) (st : SimState), P st → P (loopN ws k st) := by
  intro k
  induction k with
  | zero => intro st h; exact h
  | succ k ih =>
      intro st h
      show P (if simGuard st then loopN ws k (simBody ws st) else st)
      by_cases hg : simGuard st
      · simpa [hg] using ih _ (hbody st h)
      · simpa [hg] using h

theorem commitUnit_currentDay (st : SimState) (u : Cat × Nat) (v : Time) :
    (commitUnit st u v).currentDay = st.currentDay := by
  obtain ⟨c, j⟩ := u; cases c <;> rfl

theorem commitUnit_timedOut (st : SimState) (u : Cat × Nat) (v : Time) :
    (commitUnit st u v).timedOut = st.timedOut := by
  obtain ⟨c, j⟩ := u; cases c <;> rfl

theorem logFirstStart_currentDay (st : SimState) (t : Task) (s : Time) :
    (logFirstStart st t s).currentDay = st.currentDay := by
  unfold logFirstStart; split <;> rfl

theorem logFirstStart_timedOut (st : SimState) (t : Task) (s : Time) :
    (logFirstStart st t s).timedOut = st.timedOut := by
  unfold logFirstStart; split <;> rfl

theorem bindAt_currentDay (st : SimState) (i : Nat) (t : Task) (s : Time) (j : Nat) :
    (bindAt st i t s j).currentDay = st.currentDay := by
  unfold bindAt
  rw [commitUnit_currentDay, logFirstStart_currentDay]

theorem bindAt_timedOut (st : SimState) (i : Nat) (t : Task) (s : Time) (j : Nat) :
    (bindAt st i t s j).timedOut = st.timedOut := by
  unfold bindAt
  rw [commitUnit_timedOut, logFirstStart_timedOut]

theorem bindStep_currentDay (st : SimState) (i : Nat) :
    (bindStep st i).currentDay = st.currentDay := by
  unfold bindStep tryBind
  dsimp only
  repeat' split
  all_goals first | rw [bindAt_currentDay] | rfl

theorem bindStep_timedOut (st : SimState) (i : Nat) :
    (bindStep st i).timedOut = st.timedOut := by
  unfold bindStep tryBind
  dsimp only
  repeat' split
  all_goals first | rw [bindAt_timedOut] | rfl

theorem retireStep_currentDay (st : SimState) (i : Nat) :
    (retireStep st i).currentDay = st.currentDay := by
  unfold retireStep
  repeat' split
  all_goals rfl

theorem retireStep_timedOut (st : SimState) (i : Nat) :
    (retireStep st i).timedOut = st.timedOut := by
  unfold retireStep
  repeat' split
  all_goals rfl

theorem bindPhase_currentDay (st : SimState) :
    (bindPhase st).currentDay = st.currentDay :=
  foldl_pres (P := fun s => s.currentDay = st.currentDay)
    (fun s i h => (bindStep_currentDay s i).trans h) _ st rfl

theorem bindPhase_timedOut (st : SimState) :
    (bindPhase st).timedOut = st.timedOut :=
  foldl_pres (P := fun s => s.timedOut = st.timedOut)
    (fun s i h => (bindStep_timedOut s i).trans h) _ st rfl

theorem retirePhase_currentDay (st : SimState) :
    (retirePhase st).currentDay = st.currentDay :=
  foldl_pres (P := fun s => s.currentDay = st.currentDay)
    (fun s i h => (retireStep_currentDay s i).trans h) _ st rfl

theorem retirePhase_timedOut (st : SimState) :
    (retirePhase st).timedOut = st.timedOut :=
  foldl_pres (P := fun s => s.timedOut = st.timedOut)
    (fun s i h => (retireStep_timedOut s i).trans h) _ st rfl

theorem activate_currentDay (ws : List Site) (st : SimState) :
    (activate ws st).currentDay = st.currentDay := by
  unfold activate
  split
  · split <;> rfl
  · rfl

theorem activate_timedOut (ws : List Site) (st : SimState) :
    (activate ws st).timedOut = st.timedOut := by
  unfold activate
  split
  · split <;> rfl
  · rfl

/-- When the safety bound has not yet been exceeded, one loop body advances
the clock by exactly the fixed step `0.5`. -/
theorem simBody_currentDay (ws : List Site) (st : SimState)
    (h : ¬ st.currentDay > 1000) :
    (simBody ws st).currentDay = st.currentDay + 1 / 2 := by
  unfold simBody
  rw [if_neg h, retirePhase_currentDay]
  show (bindPhase (sortPhase (activate ws st))).currentDay + 1 / 2 = _
  rw [bindPhase_currentDay]
  show (activate ws st).currentDay + 1 / 2 = _
  rw [activate_currentDay]

/-- Once the clock exceeds the safety bound, the body takes the timeout
branch. -/
theorem simBody_timedOut (ws : List Site) (st : SimState)
    (h : st.currentDay > 1000) : (simBody ws st).timedOut = true := by
  unfold simBody
  rw [if_pos h]
  rfl

theorem simGuard_false_of_timedOut (st : SimState) (h : st.timedOut = true) :
    simGuard st = false := by
  simp [simGuard, h]

/-- The loop halts within `k + 1` iterations once `k` half-steps would push
the clock past the safety bound. -/
theorem loopN_halts (ws : List Site) :
    ∀ (k : Nat) (st : SimState), (1000 : ℚ) < st.currentDay + k / 2 →
      simGuard (loopN ws (k + 1) st) = false := by
  intro k
  induction k with
  | zero =>
      intro st h
      show simGuard (if simGuard st then loopN ws 0 (simBody ws st) else st) = false
      by_cases hg : simGuard st
      · rw [if_pos hg]
        exact simGuard_false_of_timedOut _ (simBody_timedOut ws st (by simpa using h))
      · rw [if_neg hg]; simpa using hg
  | succ k ih =>
      intro st h
      show simGuard (if simGuard st then loopN ws (k + 1) (simBody ws st) else st) = false
      by_cases hg : simGuard st
      · rw [if_pos hg]
        by_cases hc : st.currentDay > 1000
        · have ht := simBody_timedOut ws st hc
          have hgf := simGuard_false_of_timedOut _ ht
          rw [loopN_fix ws _ _ hgf]
          exact hgf
        · apply ih
          rw [simBody_currentDay ws st hc]
          push_cast at h ⊢
          linarith
      · rw [if_neg hg]; simpa using hg

/-! ## Concrete scenario inputs used by the scenario claims -/

/-- Resource counts `{Design:1, Content:1, WordPress:1, UI:1}`. -/
def demoR : Resources := ⟨1, 1, 1, 1⟩

/-- Efforts `{design:1.5, content:1.5, wordpress:1.0, ui:2.0, go_live:10.0}`. -/
def demoE : Efforts := ⟨3 / 2, 3 / 2, 1, 2, 10⟩

def demoW1 : List Site := [⟨0, 1⟩]

def demoW2 : List Site := [⟨0, 1⟩, ⟨1, 1⟩]

def demoW3 : List Site := [⟨0, 1⟩, ⟨1, 1⟩, ⟨2, 1⟩]

/-- C10: `run_simulation` terminates on every input: each non-breaking
iteration advances the clock by the fixed step `0.5` from `0`, and the loop
exits once all tasks are complete or the clock exceeds `1000`, so after at
most `2002` executions of the body the guard is false and any further fuel
leaves the state unchanged. -/
theorem C10_terminates_within_bound (r : Resources) (ws : List Site) (e : Efforts) (n : Nat) :
    simGuard (run_simulation r ws e) = false ∧
      loopN ws (2002 + n) (initState r ws e) = run_simulation r ws e := by
  have h : simGuard (loopN ws 2002 (initState r ws e)) = false := by
    have h0 : (initState r ws e).currentDay = 0 := rfl
    have := loopN_halts ws 2001 (initState r ws e) (by rw [h0]; norm_num)
    simpa using this
  exact ⟨h, by rw [loopN_add]; exact loopN_fix _ _ _ h⟩

/-- C9: `run_simulation` is deterministic.  In this pure shallow embedding
the whole run is a function of the inputs (the Python code sorts stably by
integer keys, iterates dicts in insertion order, and uses its sets only for
membership, addition and removal, so it is modelled by a function without
loss), hence two runs on identical inputs give identical start-time maps,
end-time maps and log sequences. -/
theorem C9_deterministic (r : Resources) (ws : List Site) (e : Efforts) :
    (run_simulation r ws e).startTimes = (run_simulation r ws e).startTimes ∧
      (run_simulation r ws e).endTimes = (run_simulation r ws e).endTimes ∧
      (run_simulation r ws e).log = (run_simulation r ws e).log :=
  ⟨rfl, rfl, rfl⟩

/-- C1: in the one-project, one-page scenario with unit resource counts and
efforts `{design:1.5, content:1.5, wordpress:1.0, ui:2.0, go_live:10.0}`,
the recorded finish times are Design `1.5`, Content `3.0`, WordPress `4.0`,
UI `6.0`; the Go-Live task has per-unit effort `10/2 = 5.0`, starts at
`6.0` and finishes at `11.0`; the project's recorded end time is `11.0`. -/
theorem C1_concrete_schedule :
    dlookup ⟨0, some 1, .Design⟩ (run_simulation demoR demoW1 demoE).completed
        = some ((3 / 2 : ℚ) : Time) ∧
      dlookup ⟨0, some 1, .Content⟩ (run_simulation demoR demoW1 demoE).completed
        = some ((3 : ℚ) : Time) ∧
      dlookup ⟨0, some 1, .WordPress⟩ (run_simulation demoR demoW1 demoE).completed
        = some ((4 : ℚ) : Time) ∧
      dlookup ⟨0, some 1, .UI⟩ (run_simulation demoR demoW1 demoE).completed
        = some ((6 : ℚ) : Time) ∧
      ((run_simulation demoR demoW1 demoE).tasks.find? (fun t => t.type == .GoLive)).map
          (fun t => (t.effort, t.startDay, t.endDay))
        = some (((5 : ℚ) : Time), ((6 : ℚ) : Time), ((11 : ℚ) : Time)) ∧
      dlookup 0 (run_simulation demoR demoW1 demoE).endTimes = some ((11 : ℚ) : Time) := by
  have hg : simGuard (loopN demoW1 22 (initState demoR demoW1 demoE)) = false := by
    with_unfolding_all decide
  have he : run_simulation demoR demoW1 demoE
      = loopN demoW1 22 (initState demoR demoW1 demoE) := by
    show loopN _ 2002 _ = _
    rw [show (2002 : Nat) = 22 + 1980 by norm_num, loopN_add, loopN_fix _ _ _ hg]
  rw [he]
  with_unfolding_all decide

/-- C2 counterexample: with two eligible projects and an empty active set,
only ONE project is activated on the first tick (the code guards the scan
with a single `if len(active) < 2` and `break`s after the first eligible
candidate; it does not repeat until the deficit is filled), refuting the
claim that two projects become active in that same tick. -/
theorem C2_counterexample :
    (simBody demoW2 (initState demoR demoW2 demoE)).active = [0] ∧
      ([0] : List Nat) ≠ [0, 1] := by
  constructor
  · with_unfolding_all decide
  · decide

/-- C2 amended: each tick activates at most one project — the first
eligible candidate in ascending id order — even when the active set has a
deficit of two; with an empty active set and two eligible projects, exactly
one becomes active on the first tick and the second on the following
tick. -/
theorem C2_amended_one_activation_per_tick :
    (∀ (ws : List Site) (st : SimState),
        (activate ws st).active.length ≤ st.active.length + 1) ∧
      (simBody demoW2 (initState demoR demoW2 demoE)).active = [0] ∧
      (loopN demoW2 2 (initState demoR demoW2 demoE)).active = [0, 1] := by
  refine ⟨?_, by with_unfolding_all decide, by with_unfolding_all decide⟩
  intro ws st
  unfold activate
  split
  · split
    · simp
    · exact Nat.le_succ _
  · exact Nat.le_succ _

/-- C3 counterexample: 3 one-page projects, all resource counts `1`,
efforts as in the concrete scenario.  The first retired project is site `0`
with finalize finish `11.0` (site `1` finishes at `13.0`), but the third
project's recorded first task start time is `3.0` (binding backdates
`start_day` to the moment the Design unit became free), so it is NOT `≥`
the first retirement's finalize finish. -/
theorem C3_counterexample :
    dlookup 2 (run_simulation demoR demoW3 demoE).startTimes = some ((3 : ℚ) : Time) ∧
      dlookup 0 (run_simulation demoR demoW3 demoE).endTimes = some ((11 : ℚ) : Time) ∧
      dlookup 1 (run_simulation demoR demoW3 demoE).endTimes = some ((13 : ℚ) : Time) ∧
      ¬ (((11 : ℚ) : Time) ≤ ((3 : ℚ) : Time)) := by
  have hg : simGuard (loopN demoW3 40 (initState demoR demoW3 demoE)) = false := by
    with_unfolding_all decide
  have he : run_simulation demoR demoW3 demoE
      = loopN demoW3 40 (initState demoR demoW3 demoE) := by
    show loopN _ 2002 _ = _
    rw [show (2002 : Nat) = 40 + 1962 by norm_num, loopN_add, loopN_fix _ _ _ hg]
  rw [he]
  with_unfolding_all decide

/-- C3 amended: in that scenario the third project's ACTIVATION happens
only at clock time `11.0`, i.e. at (not before) the first retired
project's finalize finish `11.0`; but its recorded first task start time is
backdated to `3.0`, the moment the Design unit became free, so the
recorded start time itself is smaller than the first retirement time. -/
theorem C3_amended_activation_after_first_retirement :
    LogMsg.activated 11 2 ∈ (run_simulation demoR demoW3 demoE).log ∧
      dlookup 0 (run_simulation demoR demoW3 demoE).endTimes = some ((11 : ℚ) : Time) ∧
      dlookup 2 (run_simulation demoR demoW3 demoE).startTimes = some ((3 : ℚ) : Time) := by
  have hg : simGuard (loopN demoW3 40 (initState demoR demoW3 demoE)) = false := by
    with_unfolding_all decide
  have he : run_simulation demoR demoW3 demoE
      = loopN demoW3 40 (initState demoR demoW3 demoE) := by
    show loopN _ 2002 _ = _
    rw [show (2002 : Nat) = 40 + 1962 by norm_num, loopN_add, loopN_fix _ _ _ hg]
  rw [he]
  with_unfolding_all decide

/-! ## C7: the plan builder refines the specification's description -/

/-- Modelled from the spec's words (§4.1 Plan Builder): for each project,
for each page from 1 to page-count, four tasks in a linear chain
Design → Content → Platform-Build → Front-End-Build, each stage depending
on the single preceding stage's task id and Design on nothing (these are
the `pageTasks`, whose fields spell this out literally); then exactly one
Finalize task per project whose dependency set is exactly the
Front-End-Build (UI) task ids of that project's pages `1 .. page-count`,
and whose effort is the finalize effort divided by the total count of
Platform-Build plus Front-End-Build units, or `+∞` when that total is zero
(`goLiveEffort` spells out that formula). -/
def specPlanBuilder (r : Resources) (ws : List Site) (e : Efforts) : List Task :=
  (ws.flatMap fun s => (List.range' 1 s.pages).flatMap (pageTasks e s))
    ++ ws.map fun s =>
        goLiveTask r e ((List.range' 1 s.pages).map fun p => ⟨s.id, some p, .UI⟩) s

theorem uiIdsIn_append (sid : Nat) (l1 l2 : List Task) :
    uiIdsIn sid (l1 ++ l2) = uiIdsIn sid l1 ++ uiIdsIn sid l2 := by
  unfold uiIdsIn
  rw [List.filter_append, List.map_append]

theorem uiIdsIn_goLiveTask (sid : Nat) (r : Resources) (e : Efforts)
    (deps : List TaskId) (s : Site) :
    uiIdsIn sid [goLiveTask r e deps s] = [] := by
  simp [uiIdsIn, goLiveTask]

/-- Unrolling the second builder loop: each appended Go-Live task is typed
`GoLive`, hence invisible to the UI filter of later iterations. -/
theorem foldl_addGoLive (r : Resources) (e : Efforts) :
    ∀ (l : List Site) (acc : List Task),
      l.foldl (addGoLive r e) acc
        = acc ++ l.map fun s => goLiveTask r e (uiIdsIn s.id acc) s := by
  intro l
  induction l with
  | nil => intro acc; simp
  | cons s l ih =>
      intro acc
      show l.foldl (addGoLive r e) (addGoLive r e acc s) = _
      rw [ih]
      show (acc ++ [goLiveTask r e (uiIdsIn s.id acc) s]) ++ _ = _
      rw [List.append_assoc, List.map_cons, List.singleton_append]
      congr 2
      apply List.map_congr_left
      intro x _
      simp only [addGoLive]
      rw [uiIdsIn_append, uiIdsIn_goLiveTask, List.append_nil]

theorem uiIdsIn_siteTasks_ne (e : Efforts) (w : Site) (sid : Nat) (h : w.id ≠ sid) :
    uiIdsIn sid (siteTasks e w) = [] := by
  unfold siteTasks
  have key : ∀ l : List Nat, uiIdsIn sid (l.flatMap (pageTasks e w)) = [] := by
    intro l
    induction l with
    | nil => rfl
    | cons p l ih =>
        rw [List.flatMap_cons, uiIdsIn_append, ih, List.append_nil]
        simp [uiIdsIn, pageTasks, h]
  exact key _

theorem uiIdsIn_siteTasks_self (e : Efforts) (s : Site) :
    uiIdsIn s.id (siteTasks e s)
      = (List.range' 1 s.pages).map fun p => ⟨s.id, some p, .UI⟩ := by
  unfold siteTasks
  have key : ∀ l : List Nat,
      uiIdsIn s.id (l.flatMap (pageTasks e s))
        = l.map fun p => (⟨s.id, some p, .UI⟩ : TaskId) := by
    intro l
    induction l with
    | nil => rfl
    | cons p l ih =>
        rw [List.flatMap_cons, uiIdsIn_append, ih, List.map_cons]
        simp [uiIdsIn, pageTasks]
  exact key _

theorem uiIdsIn_flatMap_ne (e : Efforts) (sid : Nat) :
    ∀ l : List Site, (∀ w ∈ l, w.id ≠ sid) →
      uiIdsIn sid (l.flatMap (siteTasks e)) = [] := by
  intro l
  induction l with
  | nil => intro _; rfl
  | cons w rest ih =>
      intro h
      rw [List.flatMap_cons, uiIdsIn_append,
        uiIdsIn_siteTasks_ne e w sid (h w (List.mem_cons_self w rest)),
        List.nil_append]
      exact ih fun w' hw' => h w' (List.mem_cons_of_mem w hw')

/-- With pairwise-distinct website ids, the filter over all page tasks
returns exactly the UI ids of the given site's pages, in page order. -/
theorem uiIdsIn_flatMap (e : Efforts) :
    ∀ ws : List Site, (ws.map Site.id).Nodup →
      ∀ s ∈ ws, uiIdsIn s.id (ws.flatMap (siteTasks e))
        = (List.range' 1 s.pages).map fun p => ⟨s.id, some p, .UI⟩ := by
  intro ws
  induction ws with
  | nil => intro _ s hs; cases hs
  | cons w rest ih =>
      intro hnd s hs
      rw [List.map_cons] at hnd
      obtain ⟨hw, hnd'⟩ := List.nodup_cons.mp hnd
      rw [List.flatMap_cons, uiIdsIn_append]
      rcases List.mem_cons.mp hs with rfl | hs'
      · rw [uiIdsIn_siteTasks_self, uiIdsIn_flatMap_ne e s.id rest ?_, List.append_nil]
        intro w' hw' heq
        exact hw (heq ▸ List.mem_map_of_mem Site.id hw')
      · rw [uiIdsIn_siteTasks_ne e w s.id ?_, List.nil_append, ih hnd' s hs']
        intro heq
        exact hw (heq ▸ List.mem_map_of_mem Site.id hs')

theorem buildTasks_eq_spec (r : Resources) (ws : List Site) (e : Efforts)
    (h : (ws.map Site.id).Nodup) :
    buildTasks r ws e = specPlanBuilder r ws e := by
  unfold buildTasks specPlanBuilder
  rw [foldl_addGoLive]
  congr 1
  apply List.map_congr_left
  intro s hs
  rw [uiIdsIn_flatMap e ws h s hs]

/-- C7: for every project list with pairwise-distinct ids and every effort
table, the plan builder emits, per project and per page from 1 to
page-count, exactly the four tasks chained
Design → Content → Platform-Build → Front-End-Build (each stage depending
only on the preceding stage's task id, Design on nothing), plus exactly one
Finalize task per project whose dependency set is exactly the
Front-End-Build task ids of that project's pages and whose effort is the
finalize effort divided by the total Platform-Build + Front-End-Build unit
count, or `+∞` when that total is zero. -/
theorem C7_plan_builder_refines_spec (r : Resources) (ws : List Site)
    (e : Efforts) (h : (ws.map Site.id).Nodup) :
    buildTasks r ws e = specPlanBuilder r ws e :=
  buildTasks_eq_spec r ws e h

/-- Witness for C7 at a concrete input with distinct website ids. -/
theorem C7_plan_builder_refines_spec_witness :
    (demoW2.map Site.id).Nodup ∧
      buildTasks demoR demoW2 demoE = specPlanBuilder demoR demoW2 demoE :=
  ⟨by decide, C7_plan_builder_refines_spec demoR demoW2 demoE (by decide)⟩

/-! ## Field lemmas for the loop's primitive operations -/

theorem commitUnit_tasks (st : SimState) (u : Cat × Nat) (v : Time) :
    (commitUnit st u v).tasks = st.tasks := by
  obtain ⟨c, j⟩ := u; cases c <;> rfl

theorem commitUnit_completed (st : SimState) (u : Cat × Nat) (v : Time) :
    (commitUnit st u v).completed = st.completed := by
  obtain ⟨c, j⟩ := u; cases c <;> rfl

theorem commitUnit_active (st : SimState) (u : Cat × Nat) (v : Time) :
    (commitUnit st u v).active = st.active := by
  obtain ⟨c, j⟩ := u; cases c <;> rfl

theorem commitUnit_endTimes (st : SimState) (u : Cat × Nat) (v : Time) :
    (commitUnit st u v).endTimes = st.endTimes := by
  obtain ⟨c, j⟩ := u; cases c <;> rfl

theorem commitUnit_startTimes (st : SimState) (u : Cat × Nat) (v : Time) :
    (commitUnit st u v).startTimes = st.startTimes := by
  obtain ⟨c, j⟩ := u; cases c <;> rfl

theorem commitUnit_log (st : SimState) (u : Cat × Nat) (v : Time) :
    (commitUnit st u v).log = st.log := by
  obtain ⟨c, j⟩ := u; cases c <;> rfl

theorem commitUnit_commits (st : SimState) (u : Cat × Nat) (v : Time) :
    (commitUnit st u v).commits = st.commits := by
  obtain ⟨c, j⟩ := u; cases c <;> rfl

theorem commitUnit_freeWordPress (st : SimState) (u : Cat × Nat) (v : Time) :
    (commitUnit st u v).freeWordPress
      = if u.1 = Cat.WordPress then st.freeWordPress.set u.2 v
        else st.freeWordPress := by
  obtain ⟨c, j⟩ := u; cases c <;> simp [commitUnit]

theorem commitUnit_freeUI (st : SimState) (u : Cat × Nat) (v : Time) :
    (commitUnit st u v).freeUI
      = if u.1 = Cat.UI then st.freeUI.set u.2 v else st.freeUI := by
  obtain ⟨c, j⟩ := u; cases c <;> simp [commitUnit]

theorem logFirstStart_tasks (st : SimState) (t : Task) (s : Time) :
    (logFirstStart st t s).tasks = st.tasks := by
  unfold logFirstStart; split <;> rfl

theorem logFirstStart_completed (st : SimState) (t : Task) (s : Time) :
    (logFirstStart st t s).completed = st.completed := by
  unfold logFirstStart; split <;> rfl

theorem logFirstStart_active (st : SimState) (t : Task) (s : Time) :
    (logFirstStart st t s).active = st.active := by
  unfold logFirstStart; split <;> rfl

theorem logFirstStart_endTimes (st : SimState) (t : Task) (s : Time) :
    (logFirstStart st t s).endTimes = st.endTimes := by
  unfold logFirstStart; split <;> rfl

theorem logFirstStart_commits (st : SimState) (t : Task) (s : Time) :
    (logFirstStart st t s).commits = st.commits := by
  unfold logFirstStart; split <;> rfl

theorem logFirstStart_freeWordPress (st : SimState) (t : Task) (s : Time) :
    (logFirstStart st t s).freeWordPress = st.freeWordPress := by
  unfold logFirstStart; split <;> rfl

theorem logFirstStart_freeUI (st : SimState) (t : Task) (s : Time) :
    (logFirstStart st t s).freeUI = st.freeUI := by
  unfold logFirstStart; split <;> rfl

theorem logFirstStart_freeDesign (st : SimState) (t : Task) (s : Time) :
    (logFirstStart st t s).freeDesign = st.freeDesign := by
  unfold logFirstStart; split <;> rfl

theorem logFirstStart_freeContent (st : SimState) (t : Task) (s : Time) :
    (logFirstStart st t s).freeContent = st.freeContent := by
  unfold logFirstStart; split <;> rfl

theorem logFirstStart_mem_log (st : SimState) (t : Task) (s : Time) (m : LogMsg)
    (h : m ∈ st.log) : m ∈ (logFirstStart st t s).log := by
  unfold logFirstStart
  split
  · exact h
  · exact List.mem_append_left _ h

/-! ## Permutation and counting helpers -/

theorem insTask_perm (x : Task) : ∀ l : List Task, (insTask x l).Perm (x :: l) := by
  intro l
  induction l with
  | nil => exact List.Perm.refl _
  | cons y ys ih =>
      unfold insTask
      split
      · exact List.Perm.refl _
      · exact (ih.cons y).trans (List.Perm.swap x y ys)

theorem foldl_insTask_perm :
    ∀ (l acc : List Task), (l.foldl (fun a x => insTask x a) acc).Perm (acc ++ l) := by
  intro l
  induction l with
  | nil => intro acc; simp
  | cons x xs ih =>
      intro acc
      show (xs.foldl (fun a x => insTask x a) (insTask x acc)).Perm _
      refine (ih (insTask x acc)).trans ?_
      refine (List.Perm.append_right xs (insTask_perm x acc)).trans ?_
      exact List.perm_middle.symm

theorem sortTasks_perm (l : List Task) : (sortTasks l).Perm l := by
  simpa using foldl_insTask_perm l []

theorem countP_set {α : Type} (p : α → Bool) :
    ∀ (l : List α) (i : Nat) (a b : α), l[i]? = some a →
      (l.set i b).countP p + (if p a then 1 else 0)
        = l.countP p + (if p b then 1 else 0) := by
  intro l
  induction l with
  | nil => intro i a b h; simp at h
  | cons x xs ih =>
      intro i a b h
      cases i with
      | zero =>
          simp only [List.getElem?_cons_zero, Option.some.injEq] at h
          subst h
          simp only [List.set_cons_zero, List.countP_cons]
          omega
      | succ i =>
          simp only [List.getElem?_cons_succ] at h
          simp only [List.set_cons_succ, List.countP_cons]
          have := ih i a b h
          omega

theorem countP_lt_length {α : Type} (p : α → Bool) :
    ∀ (l : List α) (x : α), x ∈ l → p x = false → l.countP p < l.length := by
  intro l
  induction l with
  | nil => intro x hx; cases hx
  | cons y ys ih =>
      intro x hx hpx
      rcases List.mem_cons.mp hx with rfl | hx'
      · rw [List.countP_cons, hpx]
        simp only [Bool.false_eq_true, if_false, Nat.add_zero, List.length_cons]
        exact Nat.lt_succ_of_le (List.countP_le_length p)
      · have h1 : (y :: ys).countP p ≤ ys.countP p + 1 := by
          rw [List.countP_cons]; split <;> omega
        have h2 := ih x hx' hpx
        simpa using Nat.lt_of_le_of_lt h1 (Nat.succ_lt_succ h2)

theorem dinsert_length_le {κ : Type} [DecidableEq κ] (k : κ) (v : Time) :
    ∀ l : List (κ × Time), (dinsert k v l).length ≤ l.length + 1 := by
  intro l
  induction l with
  | nil => simp [dinsert]
  | cons kv rest ih =>
      obtain ⟨k', v'⟩ := kv
      unfold dinsert
      split
      · simp
      · simpa using Nat.succ_le_succ ih

/-! ## C8: an empty Finalize pool forces a timeout, not a crash -/

theorem mem_set_of_ne {α : Type} :
    ∀ {l : List α} {i : Nat} {x : α}, x ∈ l → l[i]? ≠ some x →
      ∀ b : α, x ∈ l.set i b := by
  intro l
  induction l with
  | nil => intro i x hx; cases hx
  | cons y ys ih =>
      intro i x hx hne b
      cases i with
      | zero =>
          rcases List.mem_cons.mp hx with rfl | hx'
          · exact absurd (by simp) hne
          · exact List.mem_cons_of_mem _ hx'
      | succ i =>
          rcases List.mem_cons.mp hx with rfl | hx'
          · exact List.mem_cons_self _ _
          · exact List.mem_cons_of_mem _ (ih hx' (by simpa using hne) b)

/-- All tasks emitted by the plan builder start `pending`. -/
theorem buildTasks_status (r : Resources) (ws : List Site) (e : Efforts) :
    ∀ t ∈ buildTasks r ws e, t.status = .pending := by
  unfold buildTasks
  rw [foldl_addGoLive]
  intro t ht
  rcases List.mem_append.mp ht with hp | hg
  · obtain ⟨s, _, hts⟩ := List.mem_flatMap.mp hp
    unfold siteTasks at hts
    obtain ⟨p, _, htp⟩ := List.mem_flatMap.mp hts
    simp only [pageTasks, List.mem_cons, List.not_mem_nil, or_false] at htp
    rcases htp with rfl | rfl | rfl | rfl <;> rfl
  · obtain ⟨s, _, rfl⟩ := List.mem_map.mp hg
    rfl

/-- Invariant maintained throughout a run whose WordPress and UI unit
counts are both zero: the pools stay empty, no Go-Live task ever leaves
`pending`, no project end time is ever recorded, the completed map stays
strictly smaller than the task list, and the timeout flag implies the
timeout log entry. -/
def InvC8 (st : SimState) : Prop :=
  st.freeWordPress = [] ∧ st.freeUI = [] ∧
    (∀ t ∈ st.tasks, t.type = .GoLive → t.status = .pending) ∧
    st.endTimes = [] ∧
    st.completed.length ≤ st.tasks.countP (fun t => t.status == .complete) ∧
    (∃ t ∈ st.tasks, t.type = .GoLive) ∧
    (st.timedOut = true → LogMsg.timeout ∈ st.log)

theorem activate_invC8 (ws : List Site) {st : SimState} (h : InvC8 st) :
    InvC8 (activate ws st) := by
  obtain ⟨h1, h2, h3, h4, h5, h6, h7⟩ := h
  unfold activate
  split
  · split
    · exact ⟨h1, h2, h3, h4, h5, h6, fun ht => List.mem_append_left _ (h7 ht)⟩
    · exact ⟨h1, h2, h3, h4, h5, h6, h7⟩
  · exact ⟨h1, h2, h3, h4, h5, h6, h7⟩

theorem sortPhase_invC8 {st : SimState} (h : InvC8 st) :
    InvC8 (sortPhase st) := by
  unfold sortPhase
  obtain ⟨h1, h2, h3, h4, h5, h6, h7⟩ := h
  have hperm := sortTasks_perm st.tasks
  refine ⟨h1, h2, ?_, h4, ?_, ?_, h7⟩
  · intro t ht; exact h3 t (hperm.mem_iff.mp ht)
  · rw [hperm.countP_eq]; exact h5
  · obtain ⟨t, ht, hty⟩ := h6; exact ⟨t, hperm.mem_iff.mpr ht, hty⟩

theorem bindAt_invC8 {st : SimState} (h : InvC8 st) {i : Nat} {t : Task}
    (s : Time) (j : Nat) (ht : st.tasks[i]? = some t)
    (hty : (t.type == Stage.GoLive) = false)
    (hpend : t.status = Status.pending) : InvC8 (bindAt st i t s j) := by
  obtain ⟨h1, h2, h3, h4, h5, h6, h7⟩ := h
  have htyne : t.type ≠ Stage.GoLive := by simpa using hty
  unfold bindAt
  refine ⟨?_, ?_, ?_, ?_, ?_, ?_, ?_⟩
  · rw [commitUnit_freeWordPress, logFirstStart_freeWordPress]
    show (if _ then (st.freeWordPress.set _ _) else st.freeWordPress) = []
    split <;> simp [h1]
  · rw [commitUnit_freeUI, logFirstStart_freeUI]
    show (if _ then (st.freeUI.set _ _) else st.freeUI) = []
    split <;> simp [h2]
  · rw [commitUnit_tasks, logFirstStart_tasks]
    intro x hx hxg
    rcases List.mem_or_eq_of_mem_set hx with hx' | rfl
    · exact h3 x hx' hxg
    · exact absurd hxg htyne
  · rw [commitUnit_endTimes, logFirstStart_endTimes]; exact h4
  · rw [commitUnit_completed, logFirstStart_completed, commitUnit_tasks,
      logFirstStart_tasks]
    have hc := countP_set (fun x => x.status == Status.complete) st.tasks i t
      { t with status := .inprogress, startDay := s, endDay := s + t.effort } ht
    simp only [hpend, show (Status.pending == Status.complete) = false from rfl,
      show (Status.inprogress == Status.complete) = false from rfl,
      Bool.false_eq_true, if_false, Nat.add_zero] at hc
    show st.completed.length ≤ _
    rw [hc]
    exact h5
  · obtain ⟨t0, ht0, hty0⟩ := h6
    rw [commitUnit_tasks, logFirstStart_tasks]
    refine ⟨t0, mem_set_of_ne ht0 ?_ _, hty0⟩
    rw [ht]
    intro hcontra
    have : t = t0 := by injection hcontra
    exact htyne (this ▸ hty0)
  · rw [commitUnit_timedOut, logFirstStart_timedOut, commitUnit_log]
    intro hT
    exact logFirstStart_mem_log _ t s _ (h7 hT)

theorem tryBind_invC8 {st : SimState} (h : InvC8 st) {i : Nat} {t : Task}
    (ht : st.tasks[i]? = some t) (hpend : t.status = Status.pending) :
    InvC8 (tryBind st i t) := by
  unfold tryBind
  cases hgl : t.type == Stage.GoLive with
  | true =>
      obtain ⟨h1, h2, h3, h4, h5, h6, h7⟩ := h
      simp only [hgl, if_true, h1, h2, List.nil_append]
      have hpick : (pickUnit ([] : List Time) (depEndDay st.completed t.dependsOn)).2
          = -1 := rfl
      rw [hpick]
      simp only [show ((-1 : Int) != -1) = false from by decide, Bool.false_and,
        Bool.false_eq_true, if_false]
      exact ⟨h1, h2, h3, h4, h5, h6, h7⟩
  | false =>
      simp only [hgl, Bool.false_eq_true, if_false]
      split
      · exact bindAt_invC8 h _ _ ht hgl hpend
      · exact h

theorem bindStep_invC8 {st : SimState} (h : InvC8 st) (i : Nat) :
    InvC8 (bindStep st i) := by
  unfold bindStep
  split
  · exact h
  · rename_i t ht
    split
    · split
      · rename_i hguard _
        have hpend : t.status = Status.pending := by
          have := (Bool.and_eq_true _ _).mp hguard
          simpa using this.1
        exact tryBind_invC8 h ht hpend
      · exact h
    · exact h

theorem retireStep_invC8 {st : SimState} (h : InvC8 st) (i : Nat) :
    InvC8 (retireStep st i) := by
  obtain ⟨h1, h2, h3, h4, h5, h6, h7⟩ := h
  unfold retireStep
  split
  · exact ⟨h1, h2, h3, h4, h5, h6, h7⟩
  · rename_i t ht
    split
    · rename_i hguard
      have hip : t.status = Status.inprogress := by
        have := (Bool.and_eq_true _ _).mp hguard
        simpa using this.1
      have htyne : t.type ≠ Stage.GoLive := by
        intro hcontra
        have := h3 t (List.getElem?_mem ht) hcontra
        rw [hip] at this
        exact Status.noConfusion this
      rw [if_neg (by simpa using htyne)]
      refine ⟨h1, h2, ?_, h4, ?_, ?_, h7⟩
      · intro x hx hxg
        rcases List.mem_or_eq_of_mem_set hx with hx' | rfl
        · exact h3 x hx' hxg
        · exact absurd hxg htyne
      · have hc := countP_set (fun x => x.status == Status.complete) st.tasks i t
          { t with status := .complete } ht
        simp only [hip, show (Status.inprogress == Status.complete) = false from rfl,
          show (Status.complete == Status.complete) = true from rfl,
          Bool.false_eq_true, if_false, if_true, Nat.add_zero] at hc
        have hlen := dinsert_length_le t.id t.endDay st.completed
        show (dinsert t.id t.endDay st.completed).length ≤ _
        rw [hc]
        omega
      · obtain ⟨t0, ht0, hty0⟩ := h6
        refine ⟨t0, mem_set_of_ne ht0 ?_ _, hty0⟩
        rw [ht]
        intro hcontra
        have : t = t0 := by injection hcontra
        exact htyne (this ▸ hty0)
    · exact ⟨h1, h2, h3, h4, h5, h6, h7⟩

theorem advanceClock_invC8 {st : SimState} (h : InvC8 st) :
    InvC8 (advanceClock st) := h

theorem simBody_invC8 (ws : List Site) {st : SimState} (h : InvC8 st) :
    InvC8 (simBody ws st) := by
  unfold simBody
  split
  · obtain ⟨h1, h2, h3, h4, h5, h6, _⟩ := h
    exact ⟨h1, h2, h3, h4, h5, h6,
      fun _ => List.mem_append_right _ (List.mem_singleton.mpr rfl)⟩
  · unfold retirePhase
    apply foldl_pres (P := InvC8) (fun s i hs => retireStep_invC8 hs i)
    apply advanceClock_invC8
    unfold bindPhase
    apply foldl_pres (P := InvC8) (fun s i hs => bindStep_invC8 hs i)
    exact sortPhase_invC8 (activate_invC8 ws h)

theorem initState_invC8 (nd nc : Nat) (ws : List Site) (e : Efforts)
    (hne : ws ≠ []) : InvC8 (initState ⟨nd, nc, 0, 0⟩ ws e) := by
  refine ⟨rfl, rfl, ?_, rfl, ?_, ?_, ?_⟩
  · intro t ht _
    exact buildTasks_status _ ws e t ht
  · show (0 : Nat) ≤ _
    exact Nat.zero_le _
  · obtain ⟨s, rest, rfl⟩ := List.exists_cons_of_ne_nil hne
    show ∃ t ∈ buildTasks _ _ e, t.type = .GoLive
    unfold buildTasks
    rw [foldl_addGoLive]
    exact ⟨goLiveTask _ e (uiIdsIn s.id _) s,
      List.mem_append_right _ (List.mem_map_of_mem _ (List.mem_cons_self s rest)), rfl⟩
  · intro hT
    exact absurd hT (by simp [initState])

/-- C8: when both the WordPress and UI unit counts are `0` (empty Finalize
pool) and at least one project exists, the run terminates with the timeout
outcome — the timeout log entry is appended and the loop exits — and no
project ever records a finalize finish time. -/
theorem C8_empty_pool_times_out (nd nc : Nat) (ws : List Site) (e : Efforts)
    (hne : ws ≠ []) :
    (run_simulation ⟨nd, nc, 0, 0⟩ ws e).timedOut = true ∧
      LogMsg.timeout ∈ (run_simulation ⟨nd, nc, 0, 0⟩ ws e).log ∧
      (run_simulation ⟨nd, nc, 0, 0⟩ ws e).endTimes = [] ∧
      ∀ s ∈ ws, dlookup s.id (run_simulation ⟨nd, nc, 0, 0⟩ ws e).endTimes = none := by
  obtain ⟨h1, h2, h3, h4, h5, h6, h7⟩ :
      InvC8 (run_simulation ⟨nd, nc, 0, 0⟩ ws e) :=
    loopN_inv ws (fun st hs => simBody_invC8 ws hs) 2002 _
      (initState_invC8 nd nc ws e hne)
  have hguard : simGuard (run_simulation ⟨nd, nc, 0, 0⟩ ws e) = false := by
    have h0 : (initState ⟨nd, nc, 0, 0⟩ ws e).currentDay = 0 := rfl
    simpa using loopN_halts ws 2001 _ (by rw [h0]; norm_num)
  have hlt : (run_simulation ⟨nd, nc, 0, 0⟩ ws e).completed.length
      < (run_simulation ⟨nd, nc, 0, 0⟩ ws e).tasks.length := by
    obtain ⟨t0, ht0, hty0⟩ := h6
    have hp : t0.status = .pending := h3 t0 ht0 hty0
    have := countP_lt_length (fun t => t.status == Status.complete) _ t0 ht0
      (by simp only [hp]; rfl)
    omega
  have hTO : (run_simulation ⟨nd, nc, 0, 0⟩ ws e).timedOut = true := by
    unfold simGuard at hguard
    rw [decide_eq_true hlt, Bool.and_true, Bool.not_eq_false'] at hguard
    exact hguard
  refine ⟨hTO, h7 hTO, h4, fun s _ => ?_⟩
  rw [h4]
  rfl

/-- Witness for C8 at a concrete input. -/
theorem C8_empty_pool_times_out_witness :
    ([(⟨0, 1⟩ : Site)] ≠ []) ∧
      (run_simulation ⟨1, 1, 0, 0⟩ [⟨0, 1⟩] demoE).timedOut = true ∧
      LogMsg.timeout ∈ (run_simulation ⟨1, 1, 0, 0⟩ [⟨0, 1⟩] demoE).log ∧
      (run_simulation ⟨1, 1, 0, 0⟩ [⟨0, 1⟩] demoE).endTimes = [] :=
  ⟨by simp, (C8_empty_pool_times_out 1 1 [⟨0, 1⟩] demoE (by simp)).1,
    (C8_empty_pool_times_out 1 1 [⟨0, 1⟩] demoE (by simp)).2.1,
    (C8_empty_pool_times_out 1 1 [⟨0, 1⟩] demoE (by simp)).2.2.1⟩

/-! ## C4: the active-set invariants -/

theorem contains_iff_mem {l : List Nat} {a : Nat} : l.contains a = true ↔ a ∈ l :=
  List.elem_iff

theorem dlookup_dinsert_self {κ : Type} [DecidableEq κ] (k : κ) (v : Time) :
    ∀ l : List (κ × Time), dlookup k (dinsert k v l) = some v := by
  intro l
  induction l with
  | nil => simp [dinsert, dlookup]
  | cons kv rest ih =>
      obtain ⟨k', v'⟩ := kv
      unfold dinsert
      by_cases hk : k' = k
      · rw [if_pos hk]
        unfold dlookup
        rw [if_pos hk]
      · rw [if_neg hk]
        unfold dlookup
        rw [if_neg hk]
        exact ih

theorem dlookup_dinsert_ne {κ : Type} [DecidableEq κ] {p k : κ} (h : p ≠ k)
    (v : Time) : ∀ l : List (κ × Time), dlookup p (dinsert k v l) = dlookup p l := by
  intro l
  induction l with
  | nil =>
      unfold dinsert dlookup
      rw [if_neg (by intro hc; exact h hc.symm)]
      rfl
  | cons kv rest ih =>
      obtain ⟨k', v'⟩ := kv
      unfold dinsert
      by_cases hk : k' = k
      · rw [if_pos hk]
        unfold dlookup
        rw [if_neg (by rw [hk]; intro hc; exact h hc.symm),
          if_neg (by rw [hk]; intro hc; exact h hc.symm)]
      · rw [if_neg hk]
        unfold dlookup
        by_cases hp : k' = p
        · rw [if_pos hp, if_pos hp]
        · rw [if_neg hp, if_neg hp]
          exact ih

theorem dlookup_dinsert_isSome {κ : Type} [DecidableEq κ] (p k : κ) (v : Time)
    (l : List (κ × Time)) (h : (dlookup p l).isSome = true) :
    (dlookup p (dinsert k v l)).isSome = true := by
  by_cases hpk : p = k
  · subst hpk; rw [dlookup_dinsert_self]; rfl
  · rw [dlookup_dinsert_ne hpk]; exact h

theorem bindAt_active (st : SimState) (i : Nat) (t : Task) (s : Time) (j : Nat) :
    (bindAt st i t s j).active = st.active := by
  unfold bindAt
  rw [commitUnit_active, logFirstStart_active]

theorem bindStep_active (st : SimState) (i : Nat) :
    (bindStep st i).active = st.active := by
  unfold bindStep tryBind
  dsimp only
  repeat' split
  all_goals first | rw [bindAt_active] | rfl

theorem bindAt_endTimes (st : SimState) (i : Nat) (t : Task) (s : Time) (j : Nat) :
    (bindAt st i t s j).endTimes = st.endTimes := by
  unfold bindAt
  rw [commitUnit_endTimes, logFirstStart_endTimes]

theorem bindStep_endTimes (st : SimState) (i : Nat) :
    (bindStep st i).endTimes = st.endTimes := by
  unfold bindStep tryBind
  dsimp only
  repeat' split
  all_goals first | rw [bindAt_endTimes] | rfl

theorem bindPhase_active (st : SimState) : (bindPhase st).active = st.active :=
  foldl_pres (P := fun s => s.active = st.active)
    (fun s i hs => (bindStep_active s i).trans hs) _ st rfl

theorem bindPhase_endTimes (st : SimState) : (bindPhase st).endTimes = st.endTimes :=
  foldl_pres (P := fun s => s.endTimes = st.endTimes)
    (fun s i hs => (bindStep_endTimes s i).trans hs) _ st rfl

theorem activate_endTimes (ws : List Site) (st : SimState) :
    (activate ws st).endTimes = st.endTimes := by
  unfold activate
  split
  · split <;> rfl
  · rfl

theorem activate_active_mono (ws : List Site) (st : SimState) (p : Nat)
    (h : p ∈ st.active) : p ∈ (activate ws st).active := by
  unfold activate
  split
  · split
    · exact List.mem_append_left _ h
    · exact h
  · exact h

theorem preRetire_endTimes (ws : List Site) (st : SimState) :
    (advanceClock (bindPhase (sortPhase (activate ws st)))).endTimes
      = st.endTimes := by
  show (bindPhase (sortPhase (activate ws st))).endTimes = _
  rw [bindPhase_endTimes]
  show (activate ws st).endTimes = _
  exact activate_endTimes ws st

theorem preRetire_active (ws : List Site) (st : SimState) :
    (advanceClock (bindPhase (sortPhase (activate ws st)))).active
      = (activate ws st).active := by
  show (bindPhase (sortPhase (activate ws st))).active = _
  rw [bindPhase_active]
  rfl

/-- The state properties of claim C4: the active list has no duplicates and
at most two members, and every project with a recorded end time is not
active. -/
def InvC4 (st : SimState) : Prop :=
  st.active.Nodup ∧ st.active.length ≤ 2 ∧
    ∀ p : Nat, (dlookup p st.endTimes).isSome = true → p ∉ st.active

theorem activate_invC4 (ws : List Site) {st : SimState} (h : InvC4 st) :
    InvC4 (activate ws st) := by
  obtain ⟨hnd, hlen, hmem⟩ := h
  unfold activate
  split
  · rename_i hlt
    split
    · rename_i s hfind
      have hpred := List.find?_some hfind
      rw [Bool.and_eq_true, Bool.not_eq_true'] at hpred
      obtain ⟨hnc, hnone⟩ := hpred
      have hnotmem : s.id ∉ st.active := by
        intro hm
        rw [contains_iff_mem.mpr hm] at hnc
        cases hnc
      refine ⟨?_, ?_, ?_⟩
      · exact List.Nodup.append hnd (List.nodup_singleton _)
          (by intro a ha hb; rw [List.mem_singleton] at hb; subst hb; exact hnotmem ha)
      · rw [List.length_append, List.length_singleton]
        omega
      · intro p hp hpm
        rcases List.mem_append.mp hpm with hpm' | hpm'
        · exact hmem p hp hpm'
        · rw [List.mem_singleton] at hpm'
          subst hpm'
          rw [Option.isNone_iff_eq_none] at hnone
          rw [hnone] at hp
          cases hp
    · exact ⟨hnd, hlen, hmem⟩
  · exact ⟨hnd, hlen, hmem⟩

theorem bindStep_invC4 {st : SimState} (h : InvC4 st) (i : Nat) :
    InvC4 (bindStep st i) := by
  obtain ⟨hnd, hlen, hmem⟩ := h
  refine ⟨?_, ?_, ?_⟩
  · rw [bindStep_active]; exact hnd
  · rw [bindStep_active]; exact hlen
  · intro p hp
    rw [bindStep_endTimes] at hp
    rw [bindStep_active]
    exact hmem p hp

theorem retireStep_invC4 {st : SimState} (h : InvC4 st) (i : Nat) :
    InvC4 (retireStep st i) := by
  obtain ⟨hnd, hlen, hmem⟩ := h
  unfold retireStep
  split
  · exact ⟨hnd, hlen, hmem⟩
  · rename_i t ht
    split
    · split
      · refine ⟨List.Nodup.erase _ hnd,
          Nat.le_trans (List.length_erase_le _ _) hlen, ?_⟩
        intro p hp hpm
        by_cases hpw : p = t.websiteId
        · subst hpw
          exact List.Nodup.not_mem_erase hnd hpm
        · rw [dlookup_dinsert_ne hpw] at hp
          exact hmem p hp (List.mem_of_mem_erase hpm)
      · exact ⟨hnd, hlen, hmem⟩
    · exact ⟨hnd, hlen, hmem⟩

theorem simBody_invC4 (ws : List Site) {st : SimState} (h : InvC4 st) :
    InvC4 (simBody ws st) := by
  unfold simBody
  split
  · exact h
  · unfold retirePhase
    apply foldl_pres (P := InvC4) (fun s i hs => retireStep_invC4 hs i)
    show InvC4 (advanceClock (bindPhase (sortPhase (activate ws st))))
    have hb : InvC4 (bindPhase (sortPhase (activate ws st))) := by
      unfold bindPhase
      apply foldl_pres (P := InvC4) (fun s i hs => bindStep_invC4 hs i)
      exact activate_invC4 ws h
    exact hb

/-- Recorded end times are never removed during a run. -/
theorem retireStep_endTimes_isSome (p : Nat) {st : SimState}
    (h : (dlookup p st.endTimes).isSome = true) (i : Nat) :
    (dlookup p (retireStep st i).endTimes).isSome = true := by
  unfold retireStep
  split
  · exact h
  · split
    · split
      · exact dlookup_dinsert_isSome p _ _ _ h
      · exact h
    · exact h

theorem simBody_endTimes_isSome (ws : List Site) (p : Nat) {st : SimState}
    (h : (dlookup p st.endTimes).isSome = true) :
    (dlookup p (simBody ws st).endTimes).isSome = true := by
  unfold simBody
  split
  · exact h
  · unfold retirePhase
    apply foldl_pres (P := fun s => (dlookup p s.endTimes).isSome = true)
      (fun s i hs => retireStep_endTimes_isSome p hs i)
    rw [preRetire_endTimes]
    exact h

/-- A project id leaves the active set only by simultaneously acquiring a
recorded end time. -/
def activeOrEnded (p : Nat) (st : SimState) : Prop :=
  p ∈ st.active ∨ (dlookup p st.endTimes).isSome = true

theorem retireStep_activeOrEnded (p : Nat) {st : SimState}
    (h : activeOrEnded p st) (i : Nat) : activeOrEnded p (retireStep st i) := by
  unfold retireStep
  split
  · exact h
  · rename_i t ht
    split
    · split
      · rcases h with hm | hs
        · by_cases hpw : p = t.websiteId
          · subst hpw
            exact Or.inr (by rw [dlookup_dinsert_self]; rfl)
          · exact Or.inl ((List.mem_erase_of_ne hpw).mpr hm)
        · exact Or.inr (dlookup_dinsert_isSome p _ _ _ hs)
      · exact h
    · exact h

theorem simBody_activeOrEnded (ws : List Site) (p : Nat) {st : SimState}
    (h : activeOrEnded p st) : activeOrEnded p (simBody ws st) := by
  unfold simBody
  split
  · exact h
  · unfold retirePhase
    apply foldl_pres (P := activeOrEnded p)
      (fun s i hs => retireStep_activeOrEnded p hs i)
    rcases h with hm | hs
    · left
      rw [preRetire_active]
      exact activate_active_mono ws st p hm
    · right
      rw [preRetire_endTimes]
      exact hs

/-- C4: for every input and at every point of the run, the active set has
at most 2 members (also immediately after an activation step); a project id
with a recorded finalize finish time is not active then nor at any later
point (removal is permanent — never re-added); and a project id that leaves
the active set across one iteration does so exactly by acquiring its
recorded finalize finish time. -/
theorem C4_active_set_invariants (r : Resources) (ws : List Site) (e : Efforts)
    (k : Nat) :
    (loopN ws k (initState r ws e)).active.length ≤ 2 ∧
      (activate ws (loopN ws k (initState r ws e))).active.length ≤ 2 ∧
      (∀ p : Nat,
        (dlookup p (loopN ws k (initState r ws e)).endTimes).isSome = true →
        ∀ j : Nat, p ∉ (loopN ws (k + j) (initState r ws e)).active) ∧
      (∀ p : Nat, p ∈ (loopN ws k (initState r ws e)).active →
        p ∉ (loopN ws (k + 1) (initState r ws e)).active →
        (dlookup p (loopN ws (k + 1) (initState r ws e)).endTimes).isSome = true) := by
  have hInit : InvC4 (initState r ws e) := by
    refine ⟨List.nodup_nil, by simp [initState], ?_⟩
    intro p hp
    simp [initState, dlookup] at hp
  have hInv : ∀ m st, InvC4 st → InvC4 (loopN ws m st) :=
    fun m st h => loopN_inv ws (fun s hs => simBody_invC4 ws hs) m st h
  refine ⟨(hInv k _ hInit).2.1, (activate_invC4 ws (hInv k _ hInit)).2.1, ?_, ?_⟩
  · intro p hp j
    rw [loopN_add]
    have hne : (dlookup p (loopN ws j (loopN ws k (initState r ws e))).endTimes).isSome
        = true :=
      loopN_inv (P := fun s => (dlookup p s.endTimes).isSome = true) ws
        (fun s hs => simBody_endTimes_isSome ws p hs) j _ hp
    exact (hInv j _ (hInv k _ hInit)).2.2 p hne
  · intro p hmem hnot
    have hs : activeOrEnded p (loopN ws (k + 1) (initState r ws e)) := by
      rw [loopN_add]
      by_cases hg : simGuard (loopN ws k (initState r ws e)) = true
      · rw [show loopN ws 1 (loopN ws k (initState r ws e))
              = simBody ws (loopN ws k (initState r ws e)) by simp [loopN, hg]]
        exact simBody_activeOrEnded ws p (Or.inl hmem)
      · rw [loopN_fix ws 1 _ (by simpa using hg)]
        exact Or.inl hmem
    rcases hs with hm | hs
    · exact absurd hm hnot
    · exact hs

/-- Witness for C4's conditional parts at a concrete input. -/
theorem C4_active_set_invariants_witness :
    ((dlookup 0 (loopN demoW1 25 (initState demoR demoW1 demoE)).endTimes).isSome
        = true) ∧
      0 ∉ (loopN demoW1 (25 + 0) (initState demoR demoW1 demoE)).active :=
  ⟨by with_unfolding_all decide,
    (C4_active_set_invariants demoR demoW1 demoE 25).2.2.1 0
      (by with_unfolding_all decide) 0⟩

/-! ## C5: precedence — task ids are pairwise distinct -/

theorem mem_pageTasks_id {e : Efforts} {s : Site} {p : Nat} {t : Task}
    (h : t ∈ pageTasks e s p) : t.id.site = s.id ∧ t.id.page = some p := by
  simp only [pageTasks, List.mem_cons, List.not_mem_nil, or_false] at h
  rcases h with rfl | rfl | rfl | rfl <;> exact ⟨rfl, rfl⟩

theorem mem_siteTasks_id {e : Efforts} {s : Site} {t : Task}
    (h : t ∈ siteTasks e s) : t.id.site = s.id ∧ ∃ p, t.id.page = some p := by
  unfold siteTasks at h
  obtain ⟨p, _, htp⟩ := List.mem_flatMap.mp h
  obtain ⟨h1, h2⟩ := mem_pageTasks_id htp
  exact ⟨h1, p, h2⟩

theorem siteIds_nodup (e : Efforts) (s : Site) :
    ((siteTasks e s).map Task.id).Nodup := by
  unfold siteTasks
  rw [List.map_flatMap, List.nodup_flatMap]
  constructor
  · intro p _
    show ((pageTasks e s p).map Task.id).Nodup
    simp [pageTasks]
  · have hnd : (List.range' 1 s.pages).Nodup := List.nodup_range' _ _
    refine hnd.imp ?_
    intro p q hpq x hxp hxq
    obtain ⟨tp, htp, rfl⟩ := List.mem_map.mp hxp
    obtain ⟨tq, htq, hid⟩ := List.mem_map.mp hxq
    have h1 := (mem_pageTasks_id htp).2
    have h2 := (mem_pageTasks_id htq).2
    rw [hid] at h2
    rw [h1] at h2
    exact hpq (by injection h2)

/-- With pairwise-distinct website ids, the plan builder's task ids are
pairwise distinct. -/
theorem buildTasks_ids_nodup (r : Resources) (ws : List Site) (e : Efforts)
    (h : (ws.map Site.id).Nodup) : ((buildTasks r ws e).map Task.id).Nodup := by
  rw [buildTasks_eq_spec r ws e h]
  unfold specPlanBuilder
  rw [List.map_append]
  have hws : ws.Nodup := List.Nodup.of_map _ h
  apply List.Nodup.append
  · rw [List.map_flatMap, List.nodup_flatMap]
    constructor
    · intro s _
      exact siteIds_nodup e s
    · have hwnd : List.Pairwise (fun a b : Site => a.id ≠ b.id) ws :=
        List.pairwise_map.mp h
      refine hwnd.imp ?_
      intro a b hab x hxa hxb
      obtain ⟨ta, hta, rfl⟩ := List.mem_map.mp hxa
      obtain ⟨tb, htb, hid⟩ := List.mem_map.mp hxb
      have h1 := (mem_siteTasks_id hta).1
      have h2 := (mem_siteTasks_id htb).1
      rw [hid] at h2
      rw [h1] at h2
      exact hab h2
  · have heq : (ws.map fun s =>
        goLiveTask r e ((List.range' 1 s.pages).map fun p => ⟨s.id, some p, .UI⟩) s).map
          Task.id
        = (ws.map Site.id).map fun n => (⟨n, none, .GoLive⟩ : TaskId) := by
      rw [List.map_map, List.map_map]
      rfl
    rw [heq]
    exact h.map (fun a b hab => by injection hab)
  · intro x hxp hxg
    rw [List.map_flatMap] at hxp
    obtain ⟨sx, _, hx'⟩ := List.mem_flatMap.mp hxp
    obtain ⟨tx, htx, rfl⟩ := List.mem_map.mp hx'
    obtain ⟨_, p, hpage⟩ := mem_siteTasks_id htx
    obtain ⟨tg, htg, hgid⟩ := List.mem_map.mp hxg
    obtain ⟨sg, _, rfl⟩ := List.mem_map.mp htg
    rw [← hgid] at hpage
    exact Option.noConfusion hpage

/-! ## C5: the precedence invariant -/

theorem set_getElem?_eq {α : Type} :
    ∀ {l : List α} {i : Nat} {a : α}, l[i]? = some a → l.set i a = l := by
  intro l
  induction l with
  | nil => intro i a h; cases h
  | cons x xs ih =>
      intro i a h
      cases i with
      | zero =>
          simp only [List.getElem?_cons_zero, Option.some.injEq] at h
          subst h
          rfl
      | succ i =>
          simp only [List.getElem?_cons_succ] at h
          rw [List.set_cons_succ, ih h]

/-- The dependency-side of claim C5 for one dependency field and bound
start time, relative to a completed-tasks map. -/
def depOK (completed : List (TaskId × Time)) (dep : Dep) (start : Time) : Prop :=
  match dep with
  | .noDep => (0 : Time) ≤ start
  | .single d => ∃ v, dlookup d completed = some v ∧ v ≤ start
  | .many ds => ds ≠ [] → ∀ d ∈ ds, ∃ v, dlookup d completed = some v ∧ v ≤ start

/-- The precedence property of claim C5 for one task: a bound task starts
no earlier than its recorded dependency finish (resp. the maximum over its
dependency set; `0` with no dependency). -/
def precedenceOK (completed : List (TaskId × Time)) (t : Task) : Prop :=
  depOK completed t.dependsOn t.startDay

theorem depOK_dinsert {completed : List (TaskId × Time)} {k : TaskId} {v : Time}
    (hk : dlookup k completed = none) (dep : Dep) (start : Time)
    (h : depOK completed dep start) : depOK (dinsert k v completed) dep start := by
  cases dep with
  | noDep => exact h
  | single d =>
      obtain ⟨w, hw, hle⟩ := h
      have hne : d ≠ k := fun he => by rw [he, hk] at hw; cases hw
      exact ⟨w, by rw [dlookup_dinsert_ne hne]; exact hw, hle⟩
  | many ds =>
      intro hne d hd
      obtain ⟨w, hw, hle⟩ := h hne d hd
      have hdk : d ≠ k := fun he => by rw [he, hk] at hw; cases hw
      exact ⟨w, by rw [dlookup_dinsert_ne hdk]; exact hw, hle⟩

theorem foldl_max_le_base (g : TaskId → Time) :
    ∀ (l : List TaskId) (m : Time), m ≤ l.foldl (fun acc x => max acc (g x)) m := by
  intro l
  induction l with
  | nil => intro m; exact le_refl m
  | cons x r ih =>
      intro m
      exact le_trans (le_max_left m (g x)) (ih (max m (g x)))

theorem foldl_max_mem (g : TaskId → Time) :
    ∀ (l : List TaskId) (m : Time) (d : TaskId), d ∈ l →
      g d ≤ l.foldl (fun acc x => max acc (g x)) m := by
  intro l
  induction l with
  | nil => intro m d hd; cases hd
  | cons x r ih =>
      intro m d hd
      rcases List.mem_cons.mp hd with rfl | hd'
      · exact le_trans (le_max_right m (g d)) (foldl_max_le_base g r _)
      · exact ih _ d hd'

theorem depEndDay_many_ge {completed : List (TaskId × Time)} {ds : List TaskId}
    {d : TaskId} (hd : d ∈ ds) :
    (dlookup d completed).getD 0 ≤ depEndDay completed (.many ds) := by
  unfold depEndDay
  cases ds with
  | nil => cases hd
  | cons d0 rest =>
      rcases List.mem_cons.mp hd with rfl | hd'
      · exact foldl_max_le_base _ rest _
      · exact foldl_max_mem _ rest _ d hd'

/-- Satisfied dependencies with a start time at or after `dep_end_day`
give the precedence property. -/
theorem depOK_of_depsMet {completed : List (TaskId × Time)} {dep : Dep} {s : Time}
    (hmet : depsMet completed dep = true) (hle : depEndDay completed dep ≤ s) :
    depOK completed dep s := by
  cases dep with
  | noDep => exact hle
  | single d =>
      unfold depsMet at hmet
      obtain ⟨v, hv⟩ := Option.isSome_iff_exists.mp hmet
      refine ⟨v, hv, ?_⟩
      have hle' : (dlookup d completed).getD 0 ≤ s := hle
      rw [hv] at hle'
      exact hle'
  | many ds =>
      intro _ d hd
      unfold depsMet at hmet
      have hsome := List.all_eq_true.mp hmet d hd
      obtain ⟨v, hv⟩ := Option.isSome_iff_exists.mp hsome
      refine ⟨v, hv, ?_⟩
      have h1 : (dlookup d completed).getD 0 ≤ depEndDay completed (.many ds) :=
        depEndDay_many_ge hd
      rw [hv] at h1
      exact le_trans h1 hle

theorem pickUnitAux_le (depEnd : Time) :
    ∀ (rest : List Time) (i : Nat) (b : Time × Int),
      (b.2 ≠ -1 → depEnd ≤ b.1) →
      ((pickUnitAux depEnd rest i b).2 ≠ -1 →
        depEnd ≤ (pickUnitAux depEnd rest i b).1) := by
  intro rest
  induction rest with
  | nil => intro i b hb; exact hb
  | cons f r ih =>
      intro i b hb
      show (pickUnitAux depEnd r (i + 1) _).2 ≠ -1 → _
      apply ih
      split
      · intro _; exact le_max_right f depEnd
      · exact hb

theorem pickUnit_le (pool : List Time) (depEnd : Time)
    (h : (pickUnit pool depEnd).2 ≠ -1) : depEnd ≤ (pickUnit pool depEnd).1 :=
  pickUnitAux_le depEnd pool 0 (⊤, -1) (fun hc => absurd rfl hc) h

theorem activate_tasks (ws : List Site) (st : SimState) :
    (activate ws st).tasks = st.tasks := by
  unfold activate
  split
  · split <;> rfl
  · rfl

theorem activate_completed (ws : List Site) (st : SimState) :
    (activate ws st).completed = st.completed := by
  unfold activate
  split
  · split <;> rfl
  · rfl

/-- Loop invariant for C5: task ids stay pairwise distinct, the completed
map holds no entry for an uncompleted task, and every bound task satisfies
the precedence property. -/
def InvC5 (st : SimState) : Prop :=
  ((st.tasks.map Task.id).Nodup) ∧
    (∀ t ∈ st.tasks, t.status ≠ .complete → dlookup t.id st.completed = none) ∧
    (∀ t ∈ st.tasks, t.status ≠ .pending → precedenceOK st.completed t)

theorem bindAt_invC5 {st : SimState} (h : InvC5 st) {i : Nat} {t : Task}
    (ht : st.tasks[i]? = some t) (hpend : t.status = Status.pending)
    (s : Time) (j : Nat) (hsOK : depOK st.completed t.dependsOn s) :
    InvC5 (bindAt st i t s j) := by
  obtain ⟨hnd, hF, hP⟩ := h
  unfold bindAt
  have hid : (st.tasks.map Task.id)[i]? = some t.id := by
    rw [List.getElem?_map, ht]; rfl
  refine ⟨?_, ?_, ?_⟩
  · rw [commitUnit_tasks, logFirstStart_tasks]
    show ((st.tasks.set i _).map Task.id).Nodup
    rw [List.map_set]
    rw [set_getElem?_eq hid]
    exact hnd
  · rw [commitUnit_tasks, logFirstStart_tasks, commitUnit_completed,
      logFirstStart_completed]
    intro x hx hxc
    rcases List.mem_or_eq_of_mem_set hx with hx' | rfl
    · exact hF x hx' hxc
    · show dlookup t.id st.completed = none
      exact hF t (List.getElem?_mem ht)
        (by rw [hpend]; exact fun hc => Status.noConfusion hc)
  · rw [commitUnit_tasks, logFirstStart_tasks, commitUnit_completed,
      logFirstStart_completed]
    intro x hx hxp
    rcases List.mem_or_eq_of_mem_set hx with hx' | rfl
    · exact hP x hx' hxp
    · exact hsOK

theorem bindStep_invC5 {st : SimState} (h : InvC5 st) (i : Nat) :
    InvC5 (bindStep st i) := by
  unfold bindStep
  split
  · exact h
  · rename_i t ht
    split
    · rename_i hguard
      have hpend : t.status = Status.pending := by
        have := (Bool.and_eq_true _ _).mp hguard
        simpa using this.1
      split
      · rename_i hmet
        unfold tryBind
        dsimp only
        split <;> split
        all_goals first
          | exact h
          | (rename_i hcond
             rw [Bool.and_eq_true] at hcond
             exact bindAt_invC5 h ht hpend _ _
               (depOK_of_depsMet hmet (pickUnit_le _ _ (bne_iff_ne.mp hcond.1))))
      · exact h
    · exact h

theorem retireStep_invC5 {st : SimState} (h : InvC5 st) (i : Nat) :
    InvC5 (retireStep st i) := by
  obtain ⟨hnd, hF, hP⟩ := h
  unfold retireStep
  split
  · exact ⟨hnd, hF, hP⟩
  · rename_i t ht
    split
    · rename_i hguard
      have hip : t.status = Status.inprogress := by
        have := (Bool.and_eq_true _ _).mp hguard
        simpa using this.1
      have htne : t.status ≠ Status.complete := by
        rw [hip]; exact fun hc => Status.noConfusion hc
      have htfresh : dlookup t.id st.completed = none :=
        hF t (List.getElem?_mem ht) htne
      have hid : (st.tasks.map Task.id)[i]? = some t.id := by
        rw [List.getElem?_map, ht]; rfl
      have hilt : i < st.tasks.length := by
        by_contra hcon
        rw [List.getElem?_eq_none (Nat.le_of_not_lt hcon)] at ht
        cases ht
      have hnd' : ((st.tasks.set i { t with status := .complete }).map Task.id).Nodup := by
        rw [List.map_set, set_getElem?_eq hid]
        exact hnd
      have hF' : ∀ x ∈ st.tasks.set i { t with status := .complete },
          x.status ≠ .complete →
          dlookup x.id (dinsert t.id t.endDay st.completed) = none := by
        intro x hx hxc
        obtain ⟨jx, hjx⟩ := List.mem_iff_getElem?.mp hx
        by_cases hji : jx = i
        · subst hji
          rw [List.getElem?_set_self hilt] at hjx
          have hxeq : x = { t with status := Status.complete } := by
            injection hjx.symm
          rw [hxeq] at hxc
          exact absurd rfl hxc
        · rw [List.getElem?_set_ne (fun he => hji he.symm)] at hjx
          have hjlt : jx < st.tasks.length := by
            by_contra hcon
            rw [List.getElem?_eq_none (Nat.le_of_not_lt hcon)] at hjx
            cases hjx
          have hxid : x.id ≠ t.id := by
            intro he
            apply hji
            have hmap1 : (st.tasks.map Task.id)[jx]? = some x.id := by
              rw [List.getElem?_map, hjx]; rfl
            refine List.getElem?_inj (by rw [List.length_map]; exact hjlt) hnd ?_
            rw [hmap1, hid, he]
          rw [dlookup_dinsert_ne hxid]
          exact hF x (List.getElem?_mem hjx) hxc
      have hP' : ∀ x ∈ st.tasks.set i { t with status := .complete },
          x.status ≠ .pending →
          precedenceOK (dinsert t.id t.endDay st.completed) x := by
        intro x hx hxp
        rcases List.mem_or_eq_of_mem_set hx with hx' | rfl
        · exact depOK_dinsert htfresh _ _ (hP x hx' hxp)
        · have hPt := hP t (List.getElem?_mem ht)
            (by rw [hip]; exact fun hc => Status.noConfusion hc)
          exact depOK_dinsert htfresh _ _ hPt
      split
      · exact ⟨hnd', hF', hP'⟩
      · exact ⟨hnd', hF', hP'⟩
    · exact ⟨hnd, hF, hP⟩

theorem sortPhase_invC5 {st : SimState} (h : InvC5 st) : InvC5 (sortPhase st) := by
  obtain ⟨hnd, hF, hP⟩ := h
  have hperm := sortTasks_perm st.tasks
  refine ⟨?_, ?_, ?_⟩
  · exact ((hperm.map Task.id).nodup_iff).mpr hnd
  · intro x hx
    exact hF x (hperm.mem_iff.mp hx)
  · intro x hx
    exact hP x (hperm.mem_iff.mp hx)

theorem activate_invC5 (ws : List Site) {st : SimState} (h : InvC5 st) :
    InvC5 (activate ws st) := by
  obtain ⟨hnd, hF, hP⟩ := h
  refine ⟨by rw [activate_tasks]; exact hnd, ?_, ?_⟩
  · intro x hx hxc
    rw [activate_completed]
    rw [activate_tasks] at hx
    exact hF x hx hxc
  · intro x hx hxp
    rw [activate_tasks] at hx
    show precedenceOK (activate ws st).completed x
    rw [activate_completed]
    exact hP x hx hxp

theorem simBody_invC5 (ws : List Site) {st : SimState} (h : InvC5 st) :
    InvC5 (simBody ws st) := by
  unfold simBody
  split
  · exact h
  · unfold retirePhase
    apply foldl_pres (P := InvC5) (fun s i hs => retireStep_invC5 hs i)
    show InvC5 (advanceClock _)
    have hb : InvC5 (bindPhase (sortPhase (activate ws st))) := by
      unfold bindPhase
      apply foldl_pres (P := InvC5) (fun s i hs => bindStep_invC5 hs i)
      exact sortPhase_invC5 (activate_invC5 ws h)
    exact hb

theorem initState_invC5 (r : Resources) (ws : List Site) (e : Efforts)
    (h : (ws.map Site.id).Nodup) : InvC5 (initState r ws e) := by
  refine ⟨buildTasks_ids_nodup r ws e h, ?_, ?_⟩
  · intro t _ _
    rfl
  · intro t ht hp
    exact absurd (buildTasks_status r ws e t ht) hp

/-- C5: at every point of a run on a project list with pairwise-distinct
ids, every bound task (status no longer `pending`) satisfies the
precedence property: start ≥ the recorded finish of its single dependency,
start ≥ every recorded finish of a non-empty dependency set, and start ≥ 0
with no dependency. -/
theorem C5_precedence (r : Resources) (ws : List Site) (e : Efforts)
    (h : (ws.map Site.id).Nodup) :
    (∀ k : Nat, ∀ t ∈ (loopN ws k (initState r ws e)).tasks,
        t.status ≠ .pending →
        precedenceOK (loopN ws k (initState r ws e)).completed t) ∧
      ∀ t ∈ (run_simulation r ws e).tasks, t.status ≠ .pending →
        precedenceOK (run_simulation r ws e).completed t := by
  have hInv : ∀ k : Nat, InvC5 (loopN ws k (initState r ws e)) := fun k =>
    loopN_inv (P := InvC5) ws (fun s hs => simBody_invC5 ws hs) k _
      (initState_invC5 r ws e h)
  exact ⟨fun k => (hInv k).2.2, (hInv 2002).2.2⟩

/-- The Design task of the concrete one-site scenario as it stands at the
end of the run. -/
def demoDesignTaskFinal : Task :=
  { id := ⟨0, some 1, .Design⟩, websiteId := 0, page := some 1,
    type := .Design, effort := ((3 / 2 : ℚ) : Time), status := .complete,
    dependsOn := .noDep, startDay := ((0 : ℚ) : Time),
    endDay := ((3 / 2 : ℚ) : Time) }

/-- Witness for C5 at a concrete input and task. -/
theorem C5_precedence_witness :
    (demoW1.map Site.id).Nodup ∧
      demoDesignTaskFinal ∈ (loopN demoW1 22 (initState demoR demoW1 demoE)).tasks ∧
      demoDesignTaskFinal.status ≠ .pending ∧
      precedenceOK (loopN demoW1 22 (initState demoR demoW1 demoE)).completed
        demoDesignTaskFinal :=
  ⟨by decide, by with_unfolding_all decide,
    by decide,
    (C5_precedence demoR demoW1 demoE (by decide)).1 22 demoDesignTaskFinal
      (by with_unfolding_all decide) (by decide)⟩

/-! ## C6: resource exclusivity -/

/-- Claim C6's relation on two binding events: if they used the same
resource unit, their committed intervals do not overlap. -/
def commitsDisjoint (a b : Commit) : Prop :=
  a.unit = b.unit → (a.endDay ≤ b.startDay ∨ b.endDay ≤ a.startDay)

theorem freeAt_eq_of_fields {st st' : SimState}
    (h1 : st'.freeDesign = st.freeDesign) (h2 : st'.freeContent = st.freeContent)
    (h3 : st'.freeWordPress = st.freeWordPress) (h4 : st'.freeUI = st.freeUI)
    (u : Cat × Nat) : freeAt st' u = freeAt st u := by
  obtain ⟨c, j⟩ := u
  cases c <;> simp [freeAt, SimState.freeList, h1, h2, h3, h4]

theorem freeList_eq_of_fields {st st' : SimState}
    (h1 : st'.freeDesign = st.freeDesign) (h2 : st'.freeContent = st.freeContent)
    (h3 : st'.freeWordPress = st.freeWordPress) (h4 : st'.freeUI = st.freeUI)
    (c : Cat) : st'.freeList c = st.freeList c := by
  cases c <;> simp [SimState.freeList, h1, h2, h3, h4]

theorem freeAt_commitUnit_self (st : SimState) (u : Cat × Nat) (v : Time)
    (h : u.2 < (st.freeList u.1).length) : freeAt (commitUnit st u v) u = v := by
  obtain ⟨c, j⟩ := u
  cases c <;>
    simp_all [commitUnit, freeAt, SimState.freeList, List.getElem?_set_self]

theorem freeAt_commitUnit_ne (st : SimState) (u u' : Cat × Nat) (v : Time)
    (h : u' ≠ u) : freeAt (commitUnit st u v) u' = freeAt st u' := by
  obtain ⟨c, j⟩ := u
  obtain ⟨c', j'⟩ := u'
  by_cases hc : c' = c
  · subst hc
    have hj : j ≠ j' := fun he => h (by rw [he])
    cases c' <;>
      simp [commitUnit, freeAt, SimState.freeList, List.getElem?_set_ne hj]
  · cases c <;> cases c' <;>
      first
        | exact absurd rfl hc
        | simp [commitUnit, freeAt, SimState.freeList]

theorem activate_freeDesign (ws : List Site) (st : SimState) :
    (activate ws st).freeDesign = st.freeDesign := by
  unfold activate; split; · split <;> rfl
  · rfl

theorem activate_freeContent (ws : List Site) (st : SimState) :
    (activate ws st).freeContent = st.freeContent := by
  unfold activate; split; · split <;> rfl
  · rfl

theorem activate_freeWordPress (ws : List Site) (st : SimState) :
    (activate ws st).freeWordPress = st.freeWordPress := by
  unfold activate; split; · split <;> rfl
  · rfl

theorem activate_freeUI (ws : List Site) (st : SimState) :
    (activate ws st).freeUI = st.freeUI := by
  unfold activate; split; · split <;> rfl
  · rfl

theorem retireStep_freeDesign (st : SimState) (i : Nat) :
    (retireStep st i).freeDesign = st.freeDesign := by
  unfold retireStep
  repeat' split
  all_goals rfl

theorem retireStep_freeContent (st : SimState) (i : Nat) :
    (retireStep st i).freeContent = st.freeContent := by
  unfold retireStep
  repeat' split
  all_goals rfl

theorem retireStep_freeWordPress (st : SimState) (i : Nat) :
    (retireStep st i).freeWordPress = st.freeWordPress := by
  unfold retireStep
  repeat' split
  all_goals rfl

theorem retireStep_freeUI (st : SimState) (i : Nat) :
    (retireStep st i).freeUI = st.freeUI := by
  unfold retireStep
  repeat' split
  all_goals rfl

theorem retireStep_commits (st : SimState) (i : Nat) :
    (retireStep st i).commits = st.commits := by
  unfold retireStep
  repeat' split
  all_goals rfl

/-- The best unit reported by the `enumerate` scan: a valid index into the
pool whose earliest start is `max` of its free mark and the dependency
bound. -/
theorem pickUnitAux_good (depEnd : Time) (pool : List Time) :
    ∀ (rest : List Time) (i : Nat) (b : Time × Int),
      (∀ k : Nat, rest[k]? = pool[i + k]?) →
      (b.2 ≠ -1 → ∃ jn : Nat, b.2 = (jn : Int) ∧
        ∃ f, pool[jn]? = some f ∧ b.1 = max f depEnd) →
      ((pickUnitAux depEnd rest i b).2 ≠ -1 →
        ∃ jn : Nat, (pickUnitAux depEnd rest i b).2 = (jn : Int) ∧
          ∃ f, pool[jn]? = some f ∧
            (pickUnitAux depEnd rest i b).1 = max f depEnd) := by
  intro rest
  induction rest with
  | nil => intro i b _ hb; exact hb
  | cons f r ih =>
      intro i b hrel hb
      show (pickUnitAux depEnd r (i + 1) _).2 ≠ -1 → _
      apply ih
      · intro k
        have hk := hrel (k + 1)
        rw [List.getElem?_cons_succ] at hk
        rw [hk]
        congr 1
        omega
      · split
        · intro _
          refine ⟨i, rfl, f, ?_, rfl⟩
          have h0 := hrel 0
          rw [List.getElem?_cons_zero, Nat.add_zero] at h0
          exact h0.symm
        · exact hb

theorem pickUnit_good (pool : List Time) (depEnd : Time)
    (h : (pickUnit pool depEnd).2 ≠ -1) :
    ∃ jn : Nat, (pickUnit pool depEnd).2 = (jn : Int) ∧
      ∃ f, pool[jn]? = some f ∧ (pickUnit pool depEnd).1 = max f depEnd :=
  pickUnitAux_good depEnd pool pool 0 (⊤, -1) (fun k => by simp)
    (fun hc => absurd rfl hc) h

/-- The canonical unit chosen for a Go-Live binding: its free mark is the
pool entry found by the scan, and its index is in range. -/
theorem boundUnit_freeAt_goLive (st : SimState) (t : Task) (jn : Nat) (f : Time)
    (hgl : (t.type == Stage.GoLive) = true)
    (hpool : (st.freeWordPress ++ st.freeUI)[jn]? = some f) :
    freeAt st (boundUnit st t jn) = f ∧
      (boundUnit st t jn).2 < (st.freeList (boundUnit st t jn).1).length := by
  unfold boundUnit
  rw [if_pos hgl]
  by_cases hj : jn < st.freeWordPress.length
  · rw [if_pos hj]
    rw [List.getElem?_append, if_pos hj] at hpool
    constructor
    · show (st.freeWordPress[jn]?).getD 0 = f
      rw [hpool]; rfl
    · exact hj
  · rw [if_neg hj]
    rw [List.getElem?_append, if_neg hj] at hpool
    constructor
    · show (st.freeUI[jn - st.freeWordPress.length]?).getD 0 = f
      rw [hpool]; rfl
    · show jn - st.freeWordPress.length < st.freeUI.length
      by_contra hcon
      rw [List.getElem?_eq_none (Nat.le_of_not_lt hcon)] at hpool
      cases hpool

theorem boundUnit_freeAt_base (st : SimState) (t : Task) (jn : Nat) (f : Time)
    (hgl : (t.type == Stage.GoLive) = false)
    (hpool : (st.freeList (stageCat t.type))[jn]? = some f) :
    freeAt st (boundUnit st t jn) = f ∧
      (boundUnit st t jn).2 < (st.freeList (boundUnit st t jn).1).length := by
  unfold boundUnit
  rw [if_neg (by rw [hgl]; exact fun hc => Bool.noConfusion hc)]
  constructor
  · show ((st.freeList (stageCat t.type))[jn]?).getD 0 = f
    rw [hpool]; rfl
  · show jn < (st.freeList (stageCat t.type)).length
    by_contra hcon
    rw [List.getElem?_eq_none (Nat.le_of_not_lt hcon)] at hpool
    cases hpool

/-- Loop invariant for C6: efforts are non-negative, every committed
interval is ordered and ends no later than its unit's current free mark,
and intervals on the same unit are pairwise disjoint. -/
def InvC6 (st : SimState) : Prop :=
  (∀ t ∈ st.tasks, (0 : Time) ≤ t.effort) ∧
    (∀ c ∈ st.commits, c.startDay ≤ c.endDay ∧ c.endDay ≤ freeAt st c.unit) ∧
    st.commits.Pairwise commitsDisjoint

theorem bindAt_invC6 {st : SimState} (h : InvC6 st) {i : Nat} {t : Task}
    (ht : st.tasks[i]? = some t) (s : Time) (jn : Nat)
    (hfa : freeAt st (boundUnit st t jn) ≤ s)
    (hval : (boundUnit st t jn).2 < (st.freeList (boundUnit st t jn).1).length) :
    InvC6 (bindAt st i t s jn) := by
  obtain ⟨hE, hB, hP⟩ := h
  have heff : (0 : Time) ≤ t.effort := hE t (List.getElem?_mem ht)
  have hse : s ≤ s + t.effort := le_add_of_nonneg_right heff
  have hkey : ∀ st' : SimState, st'.freeDesign = st.freeDesign →
      st'.freeContent = st.freeContent → st'.freeWordPress = st.freeWordPress →
      st'.freeUI = st.freeUI →
      (∀ u, freeAt (logFirstStart st' t s) u = freeAt st u) ∧
        ∀ c', (logFirstStart st' t s).freeList c' = st.freeList c' := by
    intro st' h1 h2 h3 h4
    constructor
    · exact freeAt_eq_of_fields ((logFirstStart_freeDesign st' t s).trans h1)
        ((logFirstStart_freeContent st' t s).trans h2)
        ((logFirstStart_freeWordPress st' t s).trans h3)
        ((logFirstStart_freeUI st' t s).trans h4)
    · exact freeList_eq_of_fields ((logFirstStart_freeDesign st' t s).trans h1)
        ((logFirstStart_freeContent st' t s).trans h2)
        ((logFirstStart_freeWordPress st' t s).trans h3)
        ((logFirstStart_freeUI st' t s).trans h4)
  unfold bindAt
  refine ⟨?_, ?_, ?_⟩
  · rw [commitUnit_tasks, logFirstStart_tasks]
    intro x hx
    rcases List.mem_or_eq_of_mem_set hx with hx' | rfl
    · exact hE x hx'
    · exact heff
  · rw [commitUnit_commits, logFirstStart_commits]
    intro c hc
    obtain ⟨hfree2, hlist2⟩ := hkey
      { st with
          tasks := st.tasks.set i
            ({ t with
                status := Status.inprogress,
                startDay := s,
                endDay := s + t.effort } : Task),
          commits := st.commits ++ [Commit.mk (boundUnit st t jn) s (s + t.effort)] }
      rfl rfl rfl rfl
    rcases List.mem_append.mp hc with hc' | hc'
    · obtain ⟨hc1, hc2⟩ := hB c hc'
      refine ⟨hc1, ?_⟩
      by_cases hu : c.unit = boundUnit st t jn
      · rw [hu, freeAt_commitUnit_self _ _ _ (by rw [hlist2]; exact hval)]
        calc c.endDay ≤ freeAt st c.unit := hc2
          _ = freeAt st (boundUnit st t jn) := by rw [hu]
          _ ≤ s := hfa
          _ ≤ s + t.effort := hse
      · rw [freeAt_commitUnit_ne _ _ _ _ hu, hfree2]
        exact hc2
    · rw [List.mem_singleton] at hc'
      subst hc'
      refine ⟨hse, ?_⟩
      rw [freeAt_commitUnit_self _ _ _ (by rw [hlist2]; exact hval)]
  · rw [commitUnit_commits, logFirstStart_commits]
    rw [List.pairwise_append]
    refine ⟨hP, List.pairwise_singleton _ _, ?_⟩

    intro a ha b hb
    rw [List.mem_singleton] at hb
    subst hb
    intro hu
    left
    show a.endDay ≤ s
    calc a.endDay ≤ freeAt st a.unit := (hB a ha).2
      _ = freeAt st (boundUnit st t jn) := by rw [hu]
      _ ≤ s := hfa

theorem bindStep_invC6 {st : SimState} (h : InvC6 st) (i : Nat) :
    InvC6 (bindStep st i) := by
  unfold bindStep
  split
  · exact h
  · rename_i t ht
    split
    · split
      · unfold tryBind
        dsimp only
        split
        · rename_i hgl
          split
          · rename_i hcond
            rw [Bool.and_eq_true] at hcond
            have hne := bne_iff_ne.mp hcond.1
            obtain ⟨jn, hjn, f, hpool, hbest⟩ := pickUnit_good _ _ hne
            have hjt : (pickUnit (st.freeWordPress ++ st.freeUI)
                (depEndDay st.completed t.dependsOn)).2.toNat = jn := by
              rw [hjn]; rfl
            rw [hjt]
            obtain ⟨hf, hv⟩ := boundUnit_freeAt_goLive st t jn f hgl hpool
            refine bindAt_invC6 h ht _ jn ?_ hv
            rw [hf, hbest]
            exact le_max_left f _
          · exact h
        · rename_i hgl
          split
          · rename_i hcond
            rw [Bool.and_eq_true] at hcond
            have hne := bne_iff_ne.mp hcond.1
            obtain ⟨jn, hjn, f, hpool, hbest⟩ := pickUnit_good _ _ hne
            have hjt : (pickUnit (st.freeList (stageCat t.type))
                (depEndDay st.completed t.dependsOn)).2.toNat = jn := by
              rw [hjn]; rfl
            rw [hjt]
            have hgl' : (t.type == Stage.GoLive) = false := by
              simpa using hgl
            obtain ⟨hf, hv⟩ := boundUnit_freeAt_base st t jn f hgl' hpool
            refine bindAt_invC6 h ht _ jn ?_ hv
            rw [hf, hbest]
            exact le_max_left f _
          · exact h
      · exact h
    · exact h

theorem retireStep_invC6 {st : SimState} (h : InvC6 st) (i : Nat) :
    InvC6 (retireStep st i) := by
  obtain ⟨hE, hB, hP⟩ := h
  have hfa : ∀ u, freeAt (retireStep st i) u = freeAt st u :=
    freeAt_eq_of_fields (retireStep_freeDesign st i) (retireStep_freeContent st i)
      (retireStep_freeWordPress st i) (retireStep_freeUI st i)
  have hcm := retireStep_commits st i
  refine ⟨?_, ?_, by rw [hcm]; exact hP⟩
  · unfold retireStep
    split
    · exact hE
    · rename_i t ht
      split
      · split
        all_goals
          intro x hx
          rcases List.mem_or_eq_of_mem_set hx with hx' | rfl
          · exact hE x hx'
          · exact hE t (List.getElem?_mem ht)
      · exact hE
  · intro c hc
    rw [hcm] at hc
    rw [hfa]
    exact hB c hc

theorem sortPhase_invC6 {st : SimState} (h : InvC6 st) : InvC6 (sortPhase st) := by
  obtain ⟨hE, hB, hP⟩ := h
  have hperm := sortTasks_perm st.tasks
  exact ⟨fun t ht => hE t (hperm.mem_iff.mp ht), hB, hP⟩

theorem activate_invC6 (ws : List Site) {st : SimState} (h : InvC6 st) :
    InvC6 (activate ws st) := by
  obtain ⟨hE, hB, hP⟩ := h
  have hfa : ∀ u, freeAt (activate ws st) u = freeAt st u :=
    freeAt_eq_of_fields (activate_freeDesign ws st) (activate_freeContent ws st)
      (activate_freeWordPress ws st) (activate_freeUI ws st)
  have hcm : (activate ws st).commits = st.commits := by
    unfold activate; split; · split <;> rfl
    · rfl
  have hts := activate_tasks ws st
  refine ⟨?_, ?_, by rw [hcm]; exact hP⟩
  · rw [hts]; exact hE
  · intro c hc
    rw [hcm] at hc
    rw [hfa]
    exact hB c hc

theorem simBody_invC6 (ws : List Site) {st : SimState} (h : InvC6 st) :
    InvC6 (simBody ws st) := by
  unfold simBody
  split
  · exact h
  · unfold retirePhase
    apply foldl_pres (P := InvC6) (fun s i hs => retireStep_invC6 hs i)
    show InvC6 (advanceClock _)
    have hb : InvC6 (bindPhase (sortPhase (activate ws st))) := by
      unfold bindPhase
      apply foldl_pres (P := InvC6) (fun s i hs => bindStep_invC6 hs i)
      exact sortPhase_invC6 (activate_invC6 ws h)
    exact hb

theorem buildTasks_effort_nonneg (r : Resources) (ws : List Site) (e : Efforts)
    (h1 : (0 : ℚ) ≤ e.design) (h2 : (0 : ℚ) ≤ e.content)
    (h3 : (0 : ℚ) ≤ e.wordpress) (h4 : (0 : ℚ) ≤ e.ui)
    (h5 : (0 : ℚ) ≤ e.go_live) :
    ∀ t ∈ buildTasks r ws e, (0 : Time) ≤ t.effort := by
  unfold buildTasks
  rw [foldl_addGoLive]
  intro t ht
  rcases List.mem_append.mp ht with hp | hg
  · obtain ⟨s, _, hts⟩ := List.mem_flatMap.mp hp
    unfold siteTasks at hts
    obtain ⟨p, _, htp⟩ := List.mem_flatMap.mp hts
    simp only [pageTasks, List.mem_cons, List.not_mem_nil, or_false] at htp
    rcases htp with rfl | rfl | rfl | rfl
    · show (0 : Time) ≤ ((e.design : ℚ) : Time)
      exact_mod_cast h1
    · show (0 : Time) ≤ ((e.content : ℚ) : Time)
      exact_mod_cast h2
    · show (0 : Time) ≤ ((e.wordpress : ℚ) : Time)
      exact_mod_cast h3
    · show (0 : Time) ≤ ((e.ui : ℚ) : Time)
      exact_mod_cast h4
  · obtain ⟨s, _, rfl⟩ := List.mem_map.mp hg
    show (0 : Time) ≤ goLiveEffort r e
    unfold goLiveEffort
    split
    · rename_i hpos
      exact_mod_cast div_nonneg h5 (by positivity)
    · exact le_top

theorem initState_invC6 (r : Resources) (ws : List Site) (e : Efforts)
    (h1 : (0 : ℚ) ≤ e.design) (h2 : (0 : ℚ) ≤ e.content)
    (h3 : (0 : ℚ) ≤ e.wordpress) (h4 : (0 : ℚ) ≤ e.ui)
    (h5 : (0 : ℚ) ≤ e.go_live) : InvC6 (initState r ws e) :=
  ⟨buildTasks_effort_nonneg r ws e h1 h2 h3 h4 h5,
    fun c hc => absurd hc (List.not_mem_nil c),
    List.Pairwise.nil⟩

/-- C6: for every input with non-negative efforts and at every point of the
run, the committed `(start_day, end_day)` intervals of the bindings on any
one resource unit — including WordPress/UI units used through the Finalize
pool — are pairwise non-overlapping. -/
theorem C6_resource_exclusivity (r : Resources) (ws : List Site) (e : Efforts)
    (h1 : (0 : ℚ) ≤ e.design) (h2 : (0 : ℚ) ≤ e.content)
    (h3 : (0 : ℚ) ≤ e.wordpress) (h4 : (0 : ℚ) ≤ e.ui)
    (h5 : (0 : ℚ) ≤ e.go_live) :
    (∀ k : Nat, ((loopN ws k (initState r ws e)).commits).Pairwise commitsDisjoint) ∧
      ((run_simulation r ws e).commits).Pairwise commitsDisjoint := by
  have hInv : ∀ k : Nat, InvC6 (loopN ws k (initState r ws e)) := fun k =>
    loopN_inv (P := InvC6) ws (fun s hs => simBody_invC6 ws hs) k _
      (initState_invC6 r ws e h1 h2 h3 h4 h5)
  exact ⟨fun k => (hInv k).2.2, (hInv 2002).2.2⟩

/-- Witness for C6 at a concrete input. -/
theorem C6_resource_exclusivity_witness :
    ((0 : ℚ) ≤ (3 / 2 : ℚ)) ∧
      ((loopN demoW1 22 (initState demoR demoW1 demoE)).commits).Pairwise
        commitsDisjoint :=
  ⟨by norm_num,
    (C6_resource_exclusivity demoR demoW1 demoE (by norm_num [demoE])
      (by norm_num [demoE]) (by norm_num [demoE]) (by norm_num [demoE])
      (by norm_num [demoE])).1 22⟩

end WebDevSim
